import Mathlib

/-!
Verification of the sticker-peel simulation core of roojerry.com.

The definitions below are shallow embeddings, over `ℚ`, of the pure logic in
`src/unnamed/part_005` (the extracted, WebGL-free copies of the classes in
`src/static/js/sticker.js`): the `StickerControllerV2` state machine and
spring integrator, the crack generator, the grab-zone tracker, the torn
fraction accumulator, and the shipped `StickerController` pointer-down logic.

JavaScript numbers are modelled as rationals.  The two places where the
source computes `Math.sqrt` of a value that is not a perfect square
(`updatePeelTarget` and `screenDist`) are parameterised over the square-root
function; all theorems about them hold for every such function, hence in
particular for the real square root.  Likewise the crack generator's
`deterministicNoise` (a pure sine-hash of position with values in `[0,1)`)
is passed as an explicit function parameter, exactly as the specification
describes it: any pure, repeatable function mapping two reals to `[0,1]`.
-/

namespace Sticker

/-- A normalized 2-D UV coordinate, as the plain `{x, y}` records of the source. -/
structure UV where
  x : ℚ
  y : ℚ
deriving DecidableEq

/-- The five states of the `StickerControllerV2` state machine. -/
inductive PeelState
  | IDLE
  | HOVER
  | PEELING
  | SNAP_BACK
  | SNAP_OFF
deriving DecidableEq

/-- The argument of `setHover`: the nearest-zone hit `{point, normal}` handed to it. -/
structure HoverZone where
  point : UV
  normal : UV
deriving DecidableEq

/-- The mutable fields of `StickerControllerV2`. -/
structure Ctrl where
  state : PeelState
  peelProgress : ℚ
  peelVelocity : ℚ
  peelTarget : ℚ
  grabUV : UV
  grabNormal : UV
  peelDir : UV
deriving DecidableEq

/-- The fresh controller produced by the `StickerControllerV2` constructor. -/
def initCtrl : Ctrl :=
  { state := PeelState.IDLE
    peelProgress := 0
    peelVelocity := 0
    peelTarget := 0
    grabUV := ⟨0, 0⟩
    grabNormal := ⟨1, 0⟩
    peelDir := ⟨1, 0⟩ }

/-- The tunable parameters consumed by `StickerControllerV2`. -/
structure Params where
  SNAP_THRESHOLD : ℚ
  SPRING_K : ℚ
  SPRING_DAMP : ℚ
  FIXED_DT : ℚ

/-- The parameter object `P2` the tests construct: threshold 0.35, spring 18,
damping 0.72, fixed step 1/60 s. -/
def P2 : Params :=
  { SNAP_THRESHOLD := 7/20
    SPRING_K := 18
    SPRING_DAMP := 18/25
    FIXED_DT := 1/60 }

/-- Callback invocations of the controller, modelled as emitted events:
`onHoverChange(zone)` and `onSnapOff(frontUV, grabNormal)`. -/
inductive Ev
  | hoverChange (z : Option HoverZone)
  | snapOff (front : UV) (normal : UV)
deriving DecidableEq

/-- `StickerControllerV2.prototype.setHover`.  Valid only in IDLE/HOVER; moves to
HOVER iff a zone is present, fires the hover-change callback on a state change,
and on a non-null zone records grab point, grab normal and initial peel
direction (a copy of the zone normal). -/
def setHover (z : Option HoverZone) (c : Ctrl) : Ctrl × List Ev :=
  if c.state ≠ PeelState.IDLE ∧ c.state ≠ PeelState.HOVER then (c, [])
  else
    let next := if z.isSome then PeelState.HOVER else PeelState.IDLE
    let fired := if next ≠ c.state then
        ({ c with state := next }, [Ev.hoverChange z]) else (c, [])
    match z with
    | some zo =>
        ({ fired.1 with grabUV := zo.point, grabNormal := zo.normal,
                        peelDir := ⟨zo.normal.x, zo.normal.y⟩ }, fired.2)
    | none => fired

/-- `StickerControllerV2.prototype.startPeel`: HOVER → PEELING, zeroing
progress, velocity and target; a no-op in any other state. -/
def startPeel (c : Ctrl) : Ctrl :=
  if c.state ≠ PeelState.HOVER then c
  else { c with state := PeelState.PEELING
                peelProgress := 0
                peelVelocity := 0
                peelTarget := 0 }

/-- `StickerControllerV2.prototype.updatePeelTarget`.  `sqrtQ` stands for
`Math.sqrt`, applied to `dx*dx + dy*dy`; every theorem below holds for an
arbitrary such function.  Valid only in PEELING: sets
`peelTarget = min 1 (dist * 2.2)` and, past the 0.03 dead zone, points
`peelDir` along the normalized displacement. -/
def updatePeelTarget (sqrtQ : ℚ → ℚ) (cursorUV : UV) (c : Ctrl) : Ctrl :=
  if c.state ≠ PeelState.PEELING then c
  else
    let dx := cursorUV.x - c.grabUV.x
    let dy := cursorUV.y - c.grabUV.y
    let dist := sqrtQ (dx * dx + dy * dy)
    let c1 := { c with peelTarget := min 1 (dist * (11/5)) }
    if dist > 3/100 then { c1 with peelDir := ⟨dx / dist, dy / dist⟩ } else c1

/-- `StickerControllerV2.prototype.peelFrontUV`: the advancing crease,
`grabUV + peelDir * peelProgress`. -/
def peelFrontUV (c : Ctrl) : UV :=
  ⟨c.grabUV.x + c.peelDir.x * c.peelProgress,
   c.grabUV.y + c.peelDir.y * c.peelProgress⟩

/-- `StickerControllerV2.prototype.release`.  Valid only in PEELING.  Past the
snap threshold it moves to SNAP_OFF and fires the snap-off callback once with
the current peel-front UV and the grab normal; otherwise it moves to
SNAP_BACK with the target reset to 0. -/
def release (P : Params) (c : Ctrl) : Ctrl × List Ev :=
  if c.state ≠ PeelState.PEELING then (c, [])
  else if c.peelProgress ≥ P.SNAP_THRESHOLD then
    ({ c with state := PeelState.SNAP_OFF },
     [Ev.snapOff (peelFrontUV c) c.grabNormal])
  else
    ({ c with state := PeelState.SNAP_BACK, peelTarget := 0 }, [])

/-- `StickerControllerV2.prototype._step`: one fixed-timestep spring update.
Runs only in PEELING or SNAP_BACK; in SNAP_BACK it settles to IDLE (zeroing
progress and velocity) once the updated progress and velocity are below
0.005 and 0.002 in absolute value. -/
def stepV2 (P : Params) (dt : ℚ) (c : Ctrl) : Ctrl :=
  if c.state = PeelState.PEELING ∨ c.state = PeelState.SNAP_BACK then
    let error := c.peelTarget - c.peelProgress
    let v1 := c.peelVelocity * P.SPRING_DAMP + error * P.SPRING_K * dt
    let p1 := max 0 (min 1 (c.peelProgress + v1))
    if c.state = PeelState.SNAP_BACK ∧ |p1| < 1/200 ∧ |v1| < 1/500 then
      { c with state := PeelState.IDLE, peelProgress := 0, peelVelocity := 0 }
    else
      { c with peelVelocity := v1, peelProgress := p1 }
  else c

end Sticker

namespace Sticker

/-- `n` fixed physics steps of `StickerControllerV2` at the default 1/60 s timestep. -/
def stepN : ℕ → Ctrl → Ctrl
  | 0, c => c
  | n + 1, c => stepN n (stepV2 P2 (1/60) c)

/-- One call of the `StickerControllerV2` public interface, for reasoning about
arbitrary interleavings of input events and fixed physics steps. -/
inductive Op
  | hover (z : Option HoverZone)
  | peel
  | drag (cursorUV : UV)
  | rel
  | tick

/-- Apply one operation to the controller (events discarded). -/
def applyOp (sqrtQ : ℚ → ℚ) (c : Ctrl) (op : Op) : Ctrl :=
  match op with
  | Op.hover z => (setHover z c).1
  | Op.peel => startPeel c
  | Op.drag uv => updatePeelTarget sqrtQ uv c
  | Op.rel => (release P2 c).1
  | Op.tick => stepV2 P2 (1/60) c

/-- Run a whole sequence of interface calls and fixed steps, left to right. -/
def runOps (sqrtQ : ℚ → ℚ) (c : Ctrl) (ops : List Op) : Ctrl :=
  ops.foldl (applyOp sqrtQ) c

/- ── torn fraction (estimateTornFraction) ── -/

/-- `Math.max(...l)` for the nonempty coordinate lists fed to it. -/
def listMax : List ℚ → ℚ
  | [] => 0
  | x :: xs => xs.foldl max x

/-- `Math.min(...l)` for the nonempty coordinate lists fed to it. -/
def listMin : List ℚ → ℚ
  | [] => 0
  | x :: xs => xs.foldl min x

/-- `estimateTornFraction(polygon, currentFraction)`: adds half of the polygon's
bounding-box area to the running fraction and clamps at 1. -/
def estimateTornFraction (polygon : List UV) (currentFraction : ℚ) : ℚ :=
  let xs := polygon.map fun p => p.x
  let ys := polygon.map fun p => p.y
  let area := (listMax xs - listMin xs) * (listMax ys - listMin ys)
  min 1 (currentFraction + area * (1/2))

/-- The torn fraction after a sequence of completed tears, each applying
`estimateTornFraction` to the running value. -/
def tornFractionAfter (polys : List (List UV)) (f0 : ℚ) : ℚ :=
  polys.foldl (fun f poly => estimateTornFraction poly f) f0

/- ── crack generator (generateCrack / deterministicNoise) ── -/

/-- The crack generator's fixed parameters; `StickerControllerV2` uses step
size 0.015 and jaggedness 0.45. -/
structure CrackParams where
  CRACK_STEP_SIZE : ℚ
  TEAR_JAGGEDNESS : ℚ

/-- The defaults: `CRACK_STEP_SIZE = 0.015`, `TEAR_JAGGEDNESS = 0.45`. -/
def defaultCrackParams : CrackParams := { CRACK_STEP_SIZE := 3/200, TEAR_JAGGEDNESS := 9/20 }

/-- One candidate viewport edge: nearest point on the edge and the distance to it. -/
structure Edge where
  target : UV
  dist : ℚ

/-- `edges.sort((a,b) => a.dist - b.dist)[0]` for a stable sort: the first edge
attaining the minimal distance. -/
def firstMinEdge (e0 : Edge) (rest : List Edge) : Edge :=
  rest.foldl (fun best e => if e.dist < best.dist then e else best) e0

/-- The body of `generateCrack`'s subdivision loop: waypoint `i = j + 1` of
`steps`, at `t = i/steps` along the straight segment, displaced
perpendicularly (`px, py` is the unit perpendicular) by the noise-driven
jag, which is scaled by `TEAR_JAGGEDNESS * 0.3` and tapered by
`(1 - t * 0.5)`. -/
def crackWaypoint (noise : ℚ → ℚ → ℚ) (P : CrackParams) (o : UV)
    (dx dy px py : ℚ) (steps : ℕ) (j : ℕ) : UV :=
  let i : ℚ := (j : ℚ) + 1
  let t : ℚ := i / (steps : ℚ)
  let bx := o.x + dx * t
  let bY := o.y + dy * t
  let jag := (noise (bx * (73/10) + i * (31/100)) (bY * (51/10) + i * (17/100)) - 1/2)
               * P.TEAR_JAGGEDNESS * (3/10) * (1 - t * (1/2))
  ⟨bx + px * jag, bY + py * jag⟩

/-- `generateCrack(originUV, params)`.  `noise` stands for
`deterministicNoise`, the source's pure sine-hash of position with values in
`[0,1)` — per the specification, any pure, repeatable function mapping two
reals to `[0,1]`; every theorem below quantifies over it.  The nearest of
the four viewport edges is axis-aligned from the origin, so the source's
`Math.sqrt(dx*dx + dy*dy)` is exactly `|dx| + |dy|` (one of the two is 0);
the `|| 1e-6` guard replaces a zero length. -/
def generateCrack (noise : ℚ → ℚ → ℚ) (P : CrackParams) (originUV : UV) : List UV :=
  let STEP := P.CRACK_STEP_SIZE
  let nearest := firstMinEdge ⟨⟨0, originUV.y⟩, originUV.x⟩
      [⟨⟨1, originUV.y⟩, 1 - originUV.x⟩,
       ⟨⟨originUV.x, 0⟩, originUV.y⟩,
       ⟨⟨originUV.x, 1⟩, 1 - originUV.y⟩]
  let dx := nearest.target.x - originUV.x
  let dy := nearest.target.y - originUV.y
  let len0 := |dx| + |dy|
  let len := if len0 = 0 then 1/1000000 else len0
  let dir : UV := ⟨dx / len, dy / len⟩
  let perp : UV := ⟨-dir.y, dir.x⟩
  let steps : ℕ := (⌈len / STEP⌉).toNat
  originUV :: (List.range steps).map (crackWaypoint noise P originUV dx dy perp.x perp.y steps)

/-- A UV point within 0.05 of one of the four viewport boundary lines. -/
def nearViewportBoundary (w : UV) : Prop :=
  |w.x| ≤ 1/20 ∨ |w.x - 1| ≤ 1/20 ∨ |w.y| ≤ 1/20 ∨ |w.y - 1| ≤ 1/20

/- ── grab zone tracker (nearestGrabZone / screenDist) ── -/

/-- The snap radius in physical pixels. -/
def GRAB_SNAP_PX : ℚ := 12

/-- A grab zone: a path of UV waypoints plus an outward normal. -/
structure GrabZone where
  path : List UV
  normal : UV

/-- The result record `{zone, point, dist}` built by `nearestGrabZone`. -/
structure GrabHit where
  zone : GrabZone
  point : UV
  dist : ℚ

/-- `screenDist(a, b, iw, ih)`: UV delta scaled per axis to physical pixels;
`sqrtQ` stands for `Math.sqrt`, and every theorem below holds for an
arbitrary such function. -/
def screenDist (sqrtQ : ℚ → ℚ) (a b : UV) (iw ih : ℚ) : ℚ :=
  sqrtQ (((a.x - b.x) * iw) ^ 2 + ((a.y - b.y) * ih) ^ 2)

/-- `d < bestDist`, where a `none` accumulator plays the initial `Infinity`. -/
def closerThan (d : ℚ) : Option GrabHit → Bool
  | none => true
  | some b => decide (d < b.dist)

/-- The inner loop of `nearestGrabZone`: scan one zone's waypoints, keeping
the strictly closest hit seen so far. -/
def scanZone (sqrtQ : ℚ → ℚ) (cursorUV : UV) (iw ih : ℚ)
    (acc : Option GrabHit) (zone : GrabZone) : Option GrabHit :=
  zone.path.foldl (fun acc2 pt =>
    let d := screenDist sqrtQ cursorUV pt iw ih
    if closerThan d acc2 then some ⟨zone, pt, d⟩ else acc2) acc

/-- `nearestGrabZone(cursorUV, grabZones, iw, ih)`: the closest zone waypoint
if within the snap radius, else null. -/
def nearestGrabZone (sqrtQ : ℚ → ℚ) (cursorUV : UV) (grabZones : List GrabZone)
    (iw ih : ℚ) : Option GrabHit :=
  match grabZones.foldl (scanZone sqrtQ cursorUV iw ih) none with
  | some b => if b.dist ≤ GRAB_SNAP_PX then some b else none
  | none => none

/- ── the shipped StickerController (sticker.js), pointer-down path ── -/

/-- The four states the shipped `StickerController` moves through. -/
inductive SCState
  | IDLE
  | NOTCHING
  | GRABBED
  | TEARING
deriving DecidableEq

/-- The fields of the shipped `StickerController` touched by its pointer-down
handler, with the viewport size (`window.innerWidth/Height`) carried
alongside.  The notch-damage `Map` is modelled as a total function from
quantized cell keys to click counts, defaulting to 0. -/
structure SC where
  state : SCState
  peelProgress : ℚ
  peelVelocity : ℚ
  peelTarget : ℚ
  grabUV : UV
  peelDir : UV
  pointerUV : UV
  isStuck : Bool
  stuckTime : ℚ
  notchDamage : ℤ × ℤ → ℕ
  activeNotch : Option UV
  iw : ℚ
  ih : ℚ

/-- The shipped controller's notch parameters: threshold 3 clicks, cell
radius 0.07 UV, edge margin 90 px. -/
structure SCParams where
  NOTCH_THRESHOLD : ℕ
  NOTCH_RADIUS_UV : ℚ
  EDGE_MARGIN_PX : ℚ

def defaultSCParams : SCParams :=
  { NOTCH_THRESHOLD := 3, NOTCH_RADIUS_UV := 7/100, EDGE_MARGIN_PX := 90 }

/-- JavaScript `Math.round`: round half toward positive infinity. -/
def jsRound (q : ℚ) : ℤ := ⌊q + 1/2⌋

/-- `StickerController.prototype._notchKey`: the quantized notch cell of a UV
position (the source builds the string `u,v` from these two integers). -/
def notchKey (P : SCParams) (u v : ℚ) : ℤ × ℤ :=
  let r : ℚ := (jsRound (1 / P.NOTCH_RADIUS_UV) : ℤ)
  (jsRound (u * r), jsRound (v * r))

/-- `StickerController.prototype._isNearEdge`: within `EDGE_MARGIN_PX` of a
viewport edge, in UV units per axis. -/
abbrev isNearEdge (P : SCParams) (iw ih u v : ℚ) : Prop :=
  u < P.EDGE_MARGIN_PX / iw ∨ u > 1 - P.EDGE_MARGIN_PX / iw ∨
  v < P.EDGE_MARGIN_PX / ih ∨ v > 1 - P.EDGE_MARGIN_PX / ih

/-- `StickerController.prototype.onPointerDown` (the 200 ms NOTCHING→IDLE
revert is a wall-clock timer outside this per-event model).  In IDLE: ignore
clicks away from the edges; otherwise count a click in the notch cell, and
either show the NOTCHING cue or, at the threshold, grab with the initial
peel direction pointing away from the nearest edge.  In GRABBED/TEARING it
only tracks the pointer. -/
def onPointerDown (P : SCParams) (clientX clientY : ℚ) (c : SC) : SC :=
  let uv : UV := ⟨clientX / c.iw, clientY / c.ih⟩
  match c.state with
  | SCState.IDLE =>
    if ¬ isNearEdge P c.iw c.ih uv.x uv.y then c
    else
      let key := notchKey P uv.x uv.y
      let dmg := c.notchDamage key + 1
      let c1 := { c with notchDamage := fun k => if k = key then dmg else c.notchDamage k }
      if dmg < P.NOTCH_THRESHOLD then { c1 with state := SCState.NOTCHING }
      else
        let dl := uv.x
        let dr := 1 - uv.x
        let dt := uv.y
        let db := 1 - uv.y
        let m := min (min (min dl dr) dt) db
        let pd : UV := if m = dl then ⟨1, 0⟩ else if m = dr then ⟨-1, 0⟩
                       else if m = dt then ⟨0, 1⟩ else ⟨0, -1⟩
        { c1 with activeNotch := some uv, grabUV := uv, state := SCState.GRABBED,
                  peelTarget := 0, peelProgress := 0, peelVelocity := 0,
                  isStuck := false, peelDir := pd }
  | SCState.GRABBED => { c with pointerUV := uv }
  | SCState.TEARING => { c with pointerUV := uv }
  | SCState.NOTCHING => c

/-- A fresh shipped controller at a 1920×1080 viewport, used as a concrete
test vehicle. -/
def sc0 : SC :=
  { state := SCState.IDLE
    peelProgress := 0
    peelVelocity := 0
    peelTarget := 0
    grabUV := ⟨0, 0⟩
    peelDir := ⟨1, 0⟩
    pointerUV := ⟨0, 0⟩
    isStuck := false
    stuckTime := 0
    notchDamage := fun _ => 0
    activeNotch := none
    iw := 1920
    ih := 1080 }

/-- Quadratic Lyapunov form for the snap-back spring recurrence: exact
contraction witness for the claim C9 convergence argument. -/
def Vlyap (p v : ℚ) : ℚ := 30 * p^2 - 2 * p * v + 72 * v^2

end Sticker

namespace Sticker

/- ── helper lemmas about the controller operations ── -/

theorem setHover_fst_progress (z : Option HoverZone) (c : Ctrl) :
    ((setHover z c).1).peelProgress = c.peelProgress := by
  unfold setHover
  split
  · rfl
  · cases z <;> simp <;> split <;> rfl

theorem startPeel_progress (c : Ctrl) :
    (startPeel c).peelProgress = 0 ∨ (startPeel c).peelProgress = c.peelProgress := by
  unfold startPeel
  split
  · exact Or.inr rfl
  · exact Or.inl rfl

theorem updatePeelTarget_progress (sqrtQ : ℚ → ℚ) (uv : UV) (c : Ctrl) :
    (updatePeelTarget sqrtQ uv c).peelProgress = c.peelProgress := by
  unfold updatePeelTarget
  split
  · rfl
  · dsimp only
    split <;> rfl

theorem release_fst_progress (c : Ctrl) :
    ((release P2 c).1).peelProgress = c.peelProgress := by
  unfold release
  split
  · rfl
  · split <;> rfl

theorem stepV2_progress_mem (P : Params) (dt : ℚ) (c : Ctrl) :
    (stepV2 P dt c).peelProgress = c.peelProgress ∨
    (stepV2 P dt c).peelProgress = 0 ∨
    (0 ≤ (stepV2 P dt c).peelProgress ∧ (stepV2 P dt c).peelProgress ≤ 1) := by
  unfold stepV2
  split
  · dsimp only
    split
    · exact Or.inr (Or.inl rfl)
    · refine Or.inr (Or.inr ⟨le_max_left _ _, ?_⟩)
      exact max_le (by norm_num) (min_le_left _ _)
  · exact Or.inl rfl

theorem applyOp_progress (sqrtQ : ℚ → ℚ) (c : Ctrl) (op : Op)
    (h0 : 0 ≤ c.peelProgress) (h1 : c.peelProgress ≤ 1) :
    0 ≤ (applyOp sqrtQ c op).peelProgress ∧ (applyOp sqrtQ c op).peelProgress ≤ 1 := by
  cases op with
  | hover z => rw [applyOp, setHover_fst_progress]; exact ⟨h0, h1⟩
  | peel =>
      rw [applyOp]
      rcases startPeel_progress c with h | h <;> rw [h]
      · exact ⟨le_refl 0, by norm_num⟩
      · exact ⟨h0, h1⟩
  | drag uv => rw [applyOp, updatePeelTarget_progress]; exact ⟨h0, h1⟩
  | rel => rw [applyOp, release_fst_progress]; exact ⟨h0, h1⟩
  | tick =>
      rw [applyOp]
      rcases stepV2_progress_mem P2 (1/60) c with h | h | h
      · rw [h]; exact ⟨h0, h1⟩
      · rw [h]; exact ⟨le_refl 0, by norm_num⟩
      · exact h

theorem runOps_progress (sqrtQ : ℚ → ℚ) (c : Ctrl) (ops : List Op)
    (h0 : 0 ≤ c.peelProgress) (h1 : c.peelProgress ≤ 1) :
    0 ≤ (runOps sqrtQ c ops).peelProgress ∧ (runOps sqrtQ c ops).peelProgress ≤ 1 := by
  induction ops generalizing c with
  | nil => exact ⟨h0, h1⟩
  | cons op rest ih =>
      have h := applyOp_progress sqrtQ c op h0 h1
      exact ih (applyOp sqrtQ c op) h.1 h.2

end Sticker

namespace Sticker

/-- C1: `release()` is valid only in PEELING (a no-op elsewhere).  From every
PEELING state, if `peelProgress ≥ 0.35` it transitions to SNAP_OFF and fires
the snap-off callback exactly once with the current peel-front UV
(`grabUV + peelDir * peelProgress`) and the grab normal; if
`peelProgress < 0.35` it transitions to SNAP_BACK with `peelTarget` reset to
0 and fires no callback. -/
theorem claim_C1 (c : Ctrl) (h : c.state = PeelState.PEELING) :
    (c.peelProgress ≥ 7/20 →
      release P2 c = ({ c with state := PeelState.SNAP_OFF },
                      [Ev.snapOff (peelFrontUV c) c.grabNormal])) ∧
    (c.peelProgress < 7/20 →
      release P2 c = ({ c with state := PeelState.SNAP_BACK, peelTarget := 0 }, [])) ∧
    (∀ c2 : Ctrl, c2.state ≠ PeelState.PEELING → release P2 c2 = (c2, [])) := by
  refine ⟨?_, ?_, ?_⟩
  · intro hp
    unfold release
    rw [if_neg (by simp [h]), if_pos (show c.peelProgress ≥ P2.SNAP_THRESHOLD from hp)]
  · intro hp
    unfold release
    rw [if_neg (by simp [h]),
      if_neg (show ¬ c.peelProgress ≥ P2.SNAP_THRESHOLD from not_le.mpr hp)]
  · intro c2 h2
    unfold release
    rw [if_pos h2]

theorem claim_C1_witness :
    (⟨PeelState.PEELING, 1/2, 0, 1/2, ⟨0, 1/2⟩, ⟨1, 0⟩, ⟨1, 0⟩⟩ : Ctrl).state =
        PeelState.PEELING ∧
    (1/2 : ℚ) ≥ 7/20 ∧
    release P2 ⟨PeelState.PEELING, 1/2, 0, 1/2, ⟨0, 1/2⟩, ⟨1, 0⟩, ⟨1, 0⟩⟩ =
      ({ state := PeelState.SNAP_OFF, peelProgress := 1/2, peelVelocity := 0,
         peelTarget := 1/2, grabUV := ⟨0, 1/2⟩, grabNormal := ⟨1, 0⟩,
         peelDir := ⟨1, 0⟩ },
       [Ev.snapOff ⟨1/2, 1/2⟩ ⟨1, 0⟩]) := by
  refine ⟨rfl, by norm_num, ?_⟩
  have h := (claim_C1 ⟨PeelState.PEELING, 1/2, 0, 1/2, ⟨0, 1/2⟩, ⟨1, 0⟩, ⟨1, 0⟩⟩ rfl).1
    (by norm_num)
  rw [h]
  norm_num [peelFrontUV]

/-- C2: `peelProgress` never leaves `[0,1]`: under any sequence of
`setHover` / `startPeel` / `updatePeelTarget` (with arbitrary cursor UVs and
any square-root function) / `release` calls interleaved with any number of
fixed physics steps, a controller whose progress is in `[0,1]` keeps it in
`[0,1]` after every operation — in particular the fresh controller does.
Since every prefix of a sequence is itself a sequence, this bounds the
progress after each intermediate operation as well. -/
theorem claim_C2 (sqrtQ : ℚ → ℚ) (c : Ctrl) (ops : List Op)
    (h0 : 0 ≤ c.peelProgress) (h1 : c.peelProgress ≤ 1) :
    0 ≤ (runOps sqrtQ c ops).peelProgress ∧ (runOps sqrtQ c ops).peelProgress ≤ 1 :=
  runOps_progress sqrtQ c ops h0 h1

theorem claim_C2_witness :
    (0 : ℚ) ≤ initCtrl.peelProgress ∧ initCtrl.peelProgress ≤ 1 ∧
    (0 ≤ (runOps (fun q => q) initCtrl
            [Op.hover (some ⟨⟨0, 1/2⟩, ⟨1, 0⟩⟩), Op.peel, Op.drag ⟨5, 7⟩,
             Op.tick, Op.rel, Op.tick]).peelProgress ∧
      (runOps (fun q => q) initCtrl
            [Op.hover (some ⟨⟨0, 1/2⟩, ⟨1, 0⟩⟩), Op.peel, Op.drag ⟨5, 7⟩,
             Op.tick, Op.rel, Op.tick]).peelProgress ≤ 1) :=
  ⟨le_refl 0, by norm_num [initCtrl],
   claim_C2 (fun q => q) initCtrl
     [Op.hover (some ⟨⟨0, 1/2⟩, ⟨1, 0⟩⟩), Op.peel, Op.drag ⟨5, 7⟩,
      Op.tick, Op.rel, Op.tick] (le_refl 0) (by norm_num [initCtrl])⟩

/-- C3: the fixed-timestep integrator acts only in PEELING or SNAP_BACK, and a
step computes exactly `error = peelTarget - peelProgress`,
`peelVelocity = peelVelocity * 0.72 + error * 18 * dt`,
`peelProgress = clamp (peelProgress + peelVelocity) 0 1`; in SNAP_BACK, once
`|peelProgress| < 0.005` and `|peelVelocity| < 0.002` it transitions to IDLE
and zeroes both.  In any other state the step returns the controller
unchanged. -/
theorem claim_C3 (c : Ctrl) (dt : ℚ) :
    (c.state ≠ PeelState.PEELING ∧ c.state ≠ PeelState.SNAP_BACK →
      stepV2 P2 dt c = c) ∧
    (c.state = PeelState.PEELING →
      stepV2 P2 dt c =
        { c with
            peelVelocity :=
              c.peelVelocity * (18/25) + (c.peelTarget - c.peelProgress) * 18 * dt
            peelProgress :=
              max 0 (min 1 (c.peelProgress +
                (c.peelVelocity * (18/25) +
                  (c.peelTarget - c.peelProgress) * 18 * dt))) }) ∧
    (c.state = PeelState.SNAP_BACK →
      ((|max 0 (min 1 (c.peelProgress +
            (c.peelVelocity * (18/25) + (c.peelTarget - c.peelProgress) * 18 * dt)))| < 1/200 ∧
        |c.peelVelocity * (18/25) + (c.peelTarget - c.peelProgress) * 18 * dt| < 1/500) →
          stepV2 P2 dt c =
            { c with state := PeelState.IDLE, peelProgress := 0, peelVelocity := 0 }) ∧
      (¬ (|max 0 (min 1 (c.peelProgress +
            (c.peelVelocity * (18/25) + (c.peelTarget - c.peelProgress) * 18 * dt)))| < 1/200 ∧
          |c.peelVelocity * (18/25) + (c.peelTarget - c.peelProgress) * 18 * dt| < 1/500) →
          stepV2 P2 dt c =
            { c with
                peelVelocity :=
                  c.peelVelocity * (18/25) + (c.peelTarget - c.peelProgress) * 18 * dt
                peelProgress :=
                  max 0 (min 1 (c.peelProgress +
                    (c.peelVelocity * (18/25) +
                      (c.peelTarget - c.peelProgress) * 18 * dt))) })) := by
  refine ⟨?_, ?_, ?_⟩
  · intro h
    unfold stepV2
    rw [if_neg]
    rintro (h1 | h2)
    · exact h.1 h1
    · exact h.2 h2
  · intro h
    unfold stepV2
    rw [if_pos (Or.inl h)]
    dsimp only
    rw [if_neg]
    · show Ctrl.mk _ _ _ _ _ _ _ = _
      norm_num [P2]
    · rintro ⟨hsb, -⟩
      rw [h] at hsb
      exact PeelState.noConfusion hsb
  · intro h
    constructor
    · intro hc
      unfold stepV2
      rw [if_pos (Or.inr h)]
      dsimp only
      rw [if_pos]
      exact ⟨h, by simpa [P2] using hc.1, by simpa [P2] using hc.2⟩
    · intro hc
      unfold stepV2
      rw [if_pos (Or.inr h)]
      dsimp only
      rw [if_neg]
      · show Ctrl.mk _ _ _ _ _ _ _ = _
        norm_num [P2]
      · rintro ⟨-, h1, h2⟩
        exact hc ⟨by simpa [P2] using h1, by simpa [P2] using h2⟩

theorem claim_C3_witness :
    (⟨PeelState.PEELING, 0, 0, 1, ⟨0, 0⟩, ⟨1, 0⟩, ⟨1, 0⟩⟩ : Ctrl).state =
        PeelState.PEELING ∧
    stepV2 P2 (1/60) ⟨PeelState.PEELING, 0, 0, 1, ⟨0, 0⟩, ⟨1, 0⟩, ⟨1, 0⟩⟩ =
      { state := PeelState.PEELING, peelProgress := 3/10, peelVelocity := 3/10,
        peelTarget := 1, grabUV := ⟨0, 0⟩, grabNormal := ⟨1, 0⟩, peelDir := ⟨1, 0⟩ } := by
  refine ⟨rfl, ?_⟩
  have h := (claim_C3 ⟨PeelState.PEELING, 0, 0, 1, ⟨0, 0⟩, ⟨1, 0⟩, ⟨1, 0⟩⟩ (1/60)).2.1 rfl
  rw [h]
  norm_num

/-- C8: invalid state-machine calls are no-ops: `setHover` outside IDLE/HOVER,
`startPeel` outside HOVER, `updatePeelTarget` outside PEELING and `release`
outside PEELING all return the controller with every field unchanged (and
fire no callback). -/
theorem claim_C8 (c : Ctrl) :
    (c.state ≠ PeelState.IDLE ∧ c.state ≠ PeelState.HOVER →
      ∀ z : Option HoverZone, setHover z c = (c, [])) ∧
    (c.state ≠ PeelState.HOVER → startPeel c = c) ∧
    (c.state ≠ PeelState.PEELING →
      ∀ (sqrtQ : ℚ → ℚ) (uv : UV), updatePeelTarget sqrtQ uv c = c) ∧
    (c.state ≠ PeelState.PEELING → release P2 c = (c, [])) := by
  refine ⟨?_, ?_, ?_, ?_⟩
  · intro h z
    unfold setHover
    rw [if_pos h]
  · intro h
    unfold startPeel
    rw [if_pos h]
  · intro h sqrtQ uv
    unfold updatePeelTarget
    rw [if_pos h]
  · intro h
    unfold release
    rw [if_pos h]

theorem claim_C8_witness :
    ((⟨PeelState.SNAP_OFF, 1/2, 0, 1/2, ⟨0, 0⟩, ⟨1, 0⟩, ⟨1, 0⟩⟩ : Ctrl).state ≠
        PeelState.HOVER) ∧
    startPeel ⟨PeelState.SNAP_OFF, 1/2, 0, 1/2, ⟨0, 0⟩, ⟨1, 0⟩, ⟨1, 0⟩⟩ =
      ⟨PeelState.SNAP_OFF, 1/2, 0, 1/2, ⟨0, 0⟩, ⟨1, 0⟩, ⟨1, 0⟩⟩ :=
  ⟨by decide,
   (claim_C8 ⟨PeelState.SNAP_OFF, 1/2, 0, 1/2, ⟨0, 0⟩, ⟨1, 0⟩, ⟨1, 0⟩⟩).2.1 (by decide)⟩

end Sticker

namespace Sticker

/- ── helper lemmas for the torn fraction ── -/

theorem foldl_min_le (xs : List ℚ) (a : ℚ) : xs.foldl min a ≤ a := by
  induction xs generalizing a with
  | nil => exact le_refl a
  | cons x xs ih => exact le_trans (ih (min a x)) (min_le_left a x)

theorem le_foldl_max (xs : List ℚ) (a : ℚ) : a ≤ xs.foldl max a := by
  induction xs generalizing a with
  | nil => exact le_refl a
  | cons x xs ih => exact le_trans (le_max_left a x) (ih (max a x))

theorem listMin_le_listMax (l : List ℚ) (h : l ≠ []) : listMin l ≤ listMax l := by
  cases l with
  | nil => exact absurd rfl h
  | cons x xs => exact le_trans (foldl_min_le xs x) (le_foldl_max xs x)

theorem estimateTornFraction_step (poly : List UV) (f : ℚ)
    (hp : poly ≠ []) (h0 : 0 ≤ f) (h1 : f ≤ 1) :
    f ≤ estimateTornFraction poly f ∧ 0 ≤ estimateTornFraction poly f ∧
    estimateTornFraction poly f ≤ 1 := by
  have hx : (poly.map fun p => p.x) ≠ [] := by
    simpa [List.map_eq_nil_iff] using hp
  have hy : (poly.map fun p => p.y) ≠ [] := by
    simpa [List.map_eq_nil_iff] using hp
  have harea : 0 ≤ (listMax (poly.map fun p => p.x) - listMin (poly.map fun p => p.x)) *
      (listMax (poly.map fun p => p.y) - listMin (poly.map fun p => p.y)) :=
    mul_nonneg (sub_nonneg.mpr (listMin_le_listMax _ hx))
      (sub_nonneg.mpr (listMin_le_listMax _ hy))
  unfold estimateTornFraction
  refine ⟨le_min h1 (by linarith), ?_, min_le_left _ _⟩
  exact le_trans h0 (le_min h1 (by linarith))

theorem tornFractionAfter_bounds (polys : List (List UV)) (f : ℚ)
    (h0 : 0 ≤ f) (h1 : f ≤ 1) (hne : ∀ p ∈ polys, p ≠ []) :
    f ≤ tornFractionAfter polys f ∧ 0 ≤ tornFractionAfter polys f ∧
    tornFractionAfter polys f ≤ 1 := by
  induction polys generalizing f with
  | nil => exact ⟨le_refl f, h0, h1⟩
  | cons p ps ih =>
      have hstep := estimateTornFraction_step p f (hne p (List.mem_cons_self p ps)) h0 h1
      have hrest := ih (estimateTornFraction p f) hstep.2.1 hstep.2.2
        (fun q hq => hne q (List.mem_cons_of_mem p hq))
      have hfold : tornFractionAfter (p :: ps) f =
          tornFractionAfter ps (estimateTornFraction p f) := rfl
      rw [hfold]
      exact ⟨le_trans hstep.1 hrest.1, hrest.2.1, hrest.2.2⟩

/-- C7: the torn-fraction update computes
`min 1 (currentFraction + boundingBoxArea * 0.5)`; hence a single tear never
decreases the fraction and keeps it in `[0,1]`, and across any sequence of
completed tears the running fraction is monotonically non-decreasing (every
prefix value bounds the final value) and never exceeds 1. -/
theorem claim_C7 (poly : List UV) (f : ℚ) (polys pre suf : List (List UV))
    (hpoly : poly ≠ []) (hf0 : 0 ≤ f) (hf1 : f ≤ 1)
    (hne : ∀ p ∈ polys, p ≠ []) (hsplit : polys = pre ++ suf) :
    estimateTornFraction poly f =
      min 1 (f + (listMax (poly.map fun p => p.x) - listMin (poly.map fun p => p.x)) *
        (listMax (poly.map fun p => p.y) - listMin (poly.map fun p => p.y)) * (1/2)) ∧
    f ≤ estimateTornFraction poly f ∧
    estimateTornFraction poly f ≤ 1 ∧
    tornFractionAfter pre f ≤ tornFractionAfter polys f ∧
    0 ≤ tornFractionAfter polys f ∧ tornFractionAfter polys f ≤ 1 := by
  have hstep := estimateTornFraction_step poly f hpoly hf0 hf1
  have hprene : ∀ p ∈ pre, p ≠ [] := by
    intro p hp
    exact hne p (by rw [hsplit]; exact List.mem_append_left suf hp)
  have hsufne : ∀ p ∈ suf, p ≠ [] := by
    intro p hp
    exact hne p (by rw [hsplit]; exact List.mem_append_right pre hp)
  have hpre := tornFractionAfter_bounds pre f hf0 hf1 hprene
  have happ : tornFractionAfter polys f =
      tornFractionAfter suf (tornFractionAfter pre f) := by
    rw [hsplit]
    exact List.foldl_append _ _ _ _
  have hsuf := tornFractionAfter_bounds suf (tornFractionAfter pre f)
    hpre.2.1 hpre.2.2 hsufne
  refine ⟨rfl, hstep.1, hstep.2.2, ?_, ?_, ?_⟩
  · rw [happ]; exact hsuf.1
  · rw [happ]; exact hsuf.2.1
  · rw [happ]; exact hsuf.2.2

theorem claim_C7_witness :
    ([⟨0, 0⟩, ⟨1, 0⟩, ⟨1, 1⟩, ⟨0, 1⟩] : List UV) ≠ [] ∧
    (0 : ℚ) ≤ 0 ∧ (0 : ℚ) ≤ 1 ∧
    (0 : ℚ) ≤ estimateTornFraction [⟨0, 0⟩, ⟨1, 0⟩, ⟨1, 1⟩, ⟨0, 1⟩] 0 ∧
    estimateTornFraction [⟨0, 0⟩, ⟨1, 0⟩, ⟨1, 1⟩, ⟨0, 1⟩] 0 ≤ 1 ∧
    0 ≤ tornFractionAfter [[⟨0, 0⟩, ⟨1, 0⟩, ⟨1, 1⟩, ⟨0, 1⟩]] 0 ∧
    tornFractionAfter [[⟨0, 0⟩, ⟨1, 0⟩, ⟨1, 1⟩, ⟨0, 1⟩]] 0 ≤ 1 := by
  have hne : ∀ p ∈ ([[⟨0, 0⟩, ⟨1, 0⟩, ⟨1, 1⟩, ⟨0, 1⟩]] : List (List UV)), p ≠ [] := by
    intro p hp
    rw [List.mem_singleton] at hp
    subst hp
    exact List.cons_ne_nil _ _
  have h := claim_C7 [⟨0, 0⟩, ⟨1, 0⟩, ⟨1, 1⟩, ⟨0, 1⟩] 0
    [[⟨0, 0⟩, ⟨1, 0⟩, ⟨1, 1⟩, ⟨0, 1⟩]] [] [[⟨0, 0⟩, ⟨1, 0⟩, ⟨1, 1⟩, ⟨0, 1⟩]]
    (List.cons_ne_nil _ _) (le_refl 0) (by norm_num) hne rfl
  have hfrom := estimateTornFraction_step [⟨0, 0⟩, ⟨1, 0⟩, ⟨1, 1⟩, ⟨0, 1⟩] 0
    (List.cons_ne_nil _ _) (le_refl 0) (by norm_num)
  exact ⟨List.cons_ne_nil _ _, le_refl 0, by norm_num, hfrom.2.1, h.2.2.1,
    h.2.2.2.2.1, h.2.2.2.2.2⟩

/-- C4: `generateCrack` is deterministic: two calls with the same origin (and
the same fixed parameters and the same pure noise function — the source's
`deterministicNoise`, a stateless sine hash with no hidden random source)
produce identical waypoint lists, in particular of the same length. -/
theorem claim_C4 (noise : ℚ → ℚ → ℚ) (P : CrackParams) (o1 o2 : UV) (h : o1 = o2) :
    generateCrack noise P o1 = generateCrack noise P o2 ∧
    (generateCrack noise P o1).length = (generateCrack noise P o2).length := by
  subst h
  exact ⟨rfl, rfl⟩

theorem claim_C4_witness :
    (⟨3/10, 1/20⟩ : UV) = ⟨3/10, 1/20⟩ ∧
    generateCrack (fun x y => (x + y) / (x + y + 1)) defaultCrackParams ⟨3/10, 1/20⟩ =
      generateCrack (fun x y => (x + y) / (x + y + 1)) defaultCrackParams ⟨3/10, 1/20⟩ :=
  ⟨rfl, (claim_C4 (fun x y => (x + y) / (x + y + 1)) defaultCrackParams
      ⟨3/10, 1/20⟩ ⟨3/10, 1/20⟩ rfl).1⟩

/-- C10: in the deployed `StickerController`, an IDLE pointer-down grabs
(state GRABBED) exactly when the pointer is within the 90 px edge margin and
the accumulated click count of its quantized notch cell reaches the
threshold 3; every earlier near-edge click only sets NOTCHING and leaves
`peelProgress`, `peelVelocity` and `peelTarget` unchanged (so the first two
clicks of a cell can never start a peel), and a click away from the edges
changes nothing at all. -/
theorem claim_C10 (c : SC) (clientX clientY : ℚ) (h : c.state = SCState.IDLE) :
    ((onPointerDown defaultSCParams clientX clientY c).state = SCState.GRABBED ↔
      (isNearEdge defaultSCParams c.iw c.ih (clientX / c.iw) (clientY / c.ih) ∧
        3 ≤ c.notchDamage (notchKey defaultSCParams (clientX / c.iw) (clientY / c.ih)) + 1)) ∧
    (isNearEdge defaultSCParams c.iw c.ih (clientX / c.iw) (clientY / c.ih) →
      c.notchDamage (notchKey defaultSCParams (clientX / c.iw) (clientY / c.ih)) + 1 < 3 →
      (onPointerDown defaultSCParams clientX clientY c).state = SCState.NOTCHING ∧
      (onPointerDown defaultSCParams clientX clientY c).peelProgress = c.peelProgress ∧
      (onPointerDown defaultSCParams clientX clientY c).peelVelocity = c.peelVelocity ∧
      (onPointerDown defaultSCParams clientX clientY c).peelTarget = c.peelTarget) ∧
    (¬ isNearEdge defaultSCParams c.iw c.ih (clientX / c.iw) (clientY / c.ih) →
      onPointerDown defaultSCParams clientX clientY c = c) := by
  by_cases hE : isNearEdge defaultSCParams c.iw c.ih (clientX / c.iw) (clientY / c.ih)
  · by_cases hD : c.notchDamage (notchKey defaultSCParams (clientX / c.iw) (clientY / c.ih)) + 1 < 3
    · have hred : onPointerDown defaultSCParams clientX clientY c =
          { c with
              notchDamage := fun k =>
                if k = notchKey defaultSCParams (clientX / c.iw) (clientY / c.ih) then
                  c.notchDamage (notchKey defaultSCParams (clientX / c.iw) (clientY / c.ih)) + 1
                else c.notchDamage k
              state := SCState.NOTCHING } := by
        simp only [onPointerDown, h]
        rw [if_neg (not_not_intro hE), if_pos (by simpa [defaultSCParams] using hD)]
      refine ⟨?_, ?_, ?_⟩
      · rw [hred]
        simp only
        constructor
        · intro hg
          exact absurd hg (by decide)
        · rintro ⟨-, hge⟩
          omega
      · intro _ _
        rw [hred]
        exact ⟨rfl, rfl, rfl, rfl⟩
      · intro hnE
        exact absurd hE hnE
    · have hred : (onPointerDown defaultSCParams clientX clientY c).state =
          SCState.GRABBED := by
        simp only [onPointerDown, h]
        rw [if_neg (not_not_intro hE), if_neg (by simpa [defaultSCParams] using hD)]
      refine ⟨?_, ?_, ?_⟩
      · rw [hred]
        exact ⟨fun _ => ⟨hE, by omega⟩, fun _ => rfl⟩
      · intro _ hlt
        exact absurd hlt hD
      · intro hnE
        exact absurd hE hnE
  · have hred : onPointerDown defaultSCParams clientX clientY c = c := by
      simp only [onPointerDown, h]
      rw [if_pos hE]
    refine ⟨?_, ?_, ?_⟩
    · rw [hred]
      constructor
      · intro hg
        rw [h] at hg
        exact absurd hg (by decide)
      · rintro ⟨hEe, -⟩
        exact absurd hEe hE
    · intro hEe
      exact absurd hEe hE
    · intro _
      exact hred

theorem claim_C10_witness :
    sc0.state = SCState.IDLE ∧
    isNearEdge defaultSCParams sc0.iw sc0.ih (10 / sc0.iw) (10 / sc0.ih) ∧
    sc0.notchDamage (notchKey defaultSCParams (10 / sc0.iw) (10 / sc0.ih)) + 1 < 3 ∧
    (onPointerDown defaultSCParams 10 10 sc0).state = SCState.NOTCHING ∧
    (onPointerDown defaultSCParams 10 10 sc0).peelProgress = sc0.peelProgress := by
  have hE : isNearEdge defaultSCParams sc0.iw sc0.ih (10 / sc0.iw) (10 / sc0.ih) := by
    left
    norm_num [sc0, defaultSCParams]
  have hD : sc0.notchDamage (notchKey defaultSCParams (10 / sc0.iw) (10 / sc0.ih)) + 1 < 3 := by
    norm_num [sc0]
  have h := (claim_C10 sc0 10 10 rfl).2.1 hE hD
  exact ⟨rfl, hE, hD, h.1, h.2.1⟩

end Sticker

namespace Sticker

/- ── helper lemmas for the grab-zone scan ── -/

theorem scanPts_spec (sqrtQ : ℚ → ℚ) (cur : UV) (iw ih : ℚ) (zone : GrabZone)
    (pts : List UV) : ∀ acc : Option GrabHit,
    (pts.foldl (fun acc2 pt =>
        let d := screenDist sqrtQ cur pt iw ih
        if closerThan d acc2 then some ⟨zone, pt, d⟩ else acc2) acc = none ↔
      (acc = none ∧ pts = [])) ∧
    (∀ b, pts.foldl (fun acc2 pt =>
        let d := screenDist sqrtQ cur pt iw ih
        if closerThan d acc2 then some ⟨zone, pt, d⟩ else acc2) acc = some b →
      ((acc = some b ∨ (b.zone = zone ∧ b.point ∈ pts ∧
          b.dist = screenDist sqrtQ cur b.point iw ih)) ∧
       (∀ pt ∈ pts, b.dist ≤ screenDist sqrtQ cur pt iw ih) ∧
       (∀ a, acc = some a → b.dist ≤ a.dist))) := by
  induction pts with
  | nil =>
      intro acc
      refine ⟨by simp, ?_⟩
      intro b hb
      simp only [List.foldl_nil] at hb
      refine ⟨Or.inl hb, by simp, ?_⟩
      intro a ha
      rw [hb] at ha
      cases ha
      exact le_refl _
  | cons p rest ih2 =>
      intro acc
      simp only [List.foldl_cons]
      set d := screenDist sqrtQ cur p iw ih with hd
      have hacc1 : ∀ hc : closerThan d acc = true,
          (if closerThan d acc then some (⟨zone, p, d⟩ : GrabHit) else acc) =
            some ⟨zone, p, d⟩ := by
        intro hc
        rw [if_pos hc]
      constructor
      · constructor
        · intro hres
          exfalso
          cases hcl : closerThan d acc with
          | true =>
              have := ((ih2 (some ⟨zone, p, d⟩)).1).mp (by
                rw [← hres]
                congr 1
                rw [if_pos hcl])
              exact Option.noConfusion this.1
          | false =>
              cases hacc : acc with
              | none => rw [hacc] at hcl; exact Bool.noConfusion hcl
              | some a =>
                  have := ((ih2 acc).1).mp (by
                    rw [← hres]
                    congr 1
                    rw [if_neg (by simp [hcl])])
                  rw [hacc] at this
                  exact Option.noConfusion this.1
        · rintro ⟨-, h⟩
          exact List.noConfusion h
      · intro b hb
        cases hcl : closerThan d acc with
        | true =>
            rw [if_pos hcl] at hb
            have hspec := (ih2 (some ⟨zone, p, d⟩)).2 b hb
            have hdb : b.dist ≤ d := by
              have := hspec.2.2 ⟨zone, p, d⟩ rfl
              exact this
            refine ⟨?_, ?_, ?_⟩
            · rcases hspec.1 with h1 | h1
              · cases h1
                exact Or.inr ⟨rfl, List.mem_cons_self p rest, rfl⟩
              · exact Or.inr ⟨h1.1, List.mem_cons_of_mem p h1.2.1, h1.2.2⟩
            · intro pt hpt
              rcases List.mem_cons.mp hpt with h1 | h1
              · subst h1
                exact hd ▸ hdb
              · exact hspec.2.1 pt h1
            · intro a ha
              have hlt : d < a.dist := by
                rw [ha] at hcl
                exact of_decide_eq_true hcl
              exact le_trans hdb (le_of_lt hlt)
        | false =>
            rw [if_neg (by simp [hcl])] at hb
            obtain ⟨a0, ha0⟩ : ∃ a0, acc = some a0 := by
              cases hacc : acc with
              | none => rw [hacc] at hcl; exact Bool.noConfusion hcl
              | some a => exact ⟨a, rfl⟩
            have ha0d : a0.dist ≤ d := by
              rw [ha0] at hcl
              have := of_decide_eq_false hcl
              exact le_of_not_lt this
            have hspec := (ih2 acc).2 b hb
            have hba0 : b.dist ≤ a0.dist := hspec.2.2 a0 ha0
            refine ⟨?_, ?_, ?_⟩
            · rcases hspec.1 with h1 | h1
              · exact Or.inl h1
              · exact Or.inr ⟨h1.1, List.mem_cons_of_mem p h1.2.1, h1.2.2⟩
            · intro pt hpt
              rcases List.mem_cons.mp hpt with h1 | h1
              · rw [h1]
                exact le_trans hba0 ha0d
              · exact hspec.2.1 pt h1
            · intro a ha
              rw [ha] at ha0
              cases ha0
              exact hba0

theorem scanZone_spec (sqrtQ : ℚ → ℚ) (cur : UV) (iw ih : ℚ) (zone : GrabZone)
    (acc : Option GrabHit) :
    (scanZone sqrtQ cur iw ih acc zone = none ↔ (acc = none ∧ zone.path = [])) ∧
    (∀ b, scanZone sqrtQ cur iw ih acc zone = some b →
      ((acc = some b ∨ (b.zone = zone ∧ b.point ∈ zone.path ∧
          b.dist = screenDist sqrtQ cur b.point iw ih)) ∧
       (∀ pt ∈ zone.path, b.dist ≤ screenDist sqrtQ cur pt iw ih) ∧
       (∀ a, acc = some a → b.dist ≤ a.dist))) :=
  scanPts_spec sqrtQ cur iw ih zone zone.path acc

theorem foldZones_spec (sqrtQ : ℚ → ℚ) (cur : UV) (iw ih : ℚ)
    (zones : List GrabZone) : ∀ acc : Option GrabHit,
    (zones.foldl (scanZone sqrtQ cur iw ih) acc = none ↔
      (acc = none ∧ ∀ z ∈ zones, z.path = [])) ∧
    (∀ b, zones.foldl (scanZone sqrtQ cur iw ih) acc = some b →
      ((acc = some b ∨ ∃ z ∈ zones, b.zone = z ∧ b.point ∈ z.path ∧
          b.dist = screenDist sqrtQ cur b.point iw ih) ∧
       (∀ z ∈ zones, ∀ pt ∈ z.path, b.dist ≤ screenDist sqrtQ cur pt iw ih) ∧
       (∀ a, acc = some a → b.dist ≤ a.dist))) := by
  induction zones with
  | nil =>
      intro acc
      refine ⟨by simp, ?_⟩
      intro b hb
      simp only [List.foldl_nil] at hb
      refine ⟨Or.inl hb, by simp, ?_⟩
      intro a ha
      rw [hb] at ha
      cases ha
      exact le_refl _
  | cons z rest ih2 =>
      intro acc
      simp only [List.foldl_cons]
      have hz := scanZone_spec sqrtQ cur iw ih z acc
      constructor
      · constructor
        · intro hres
          have h1 := ((ih2 (scanZone sqrtQ cur iw ih acc z)).1).mp hres
          have h2 := (hz.1).mp h1.1
          refine ⟨h2.1, ?_⟩
          intro z2 hz2
          rcases List.mem_cons.mp hz2 with h3 | h3
          · rw [h3]; exact h2.2
          · exact h1.2 z2 h3
        · rintro ⟨hacc, hall⟩
          apply ((ih2 (scanZone sqrtQ cur iw ih acc z)).1).mpr
          refine ⟨(hz.1).mpr ⟨hacc, hall z (List.mem_cons_self z rest)⟩, ?_⟩
          intro z2 hz2
          exact hall z2 (List.mem_cons_of_mem z hz2)
      · intro b hb
        have hspec := (ih2 (scanZone sqrtQ cur iw ih acc z)).2 b hb
        cases hacc1 : scanZone sqrtQ cur iw ih acc z with
        | none =>
            have h2 := (hz.1).mp hacc1
            refine ⟨?_, ?_, ?_⟩
            · rcases hspec.1 with h1 | h1
              · rw [hacc1] at h1
                exact Option.noConfusion h1
              · obtain ⟨z2, hz2, hrest⟩ := h1
                exact Or.inr ⟨z2, List.mem_cons_of_mem z hz2, hrest⟩
            · intro z2 hz2
              rcases List.mem_cons.mp hz2 with h3 | h3
              · rw [h3, h2.2]
                intro pt hpt
                exact absurd hpt (List.not_mem_nil pt)
              · exact hspec.2.1 z2 h3
            · intro a ha
              rw [ha] at h2
              exact Option.noConfusion h2.1
        | some a1 =>
            have ha1 := (hz.2) a1 hacc1
            have hba1 : b.dist ≤ a1.dist := hspec.2.2 a1 hacc1
            refine ⟨?_, ?_, ?_⟩
            · rcases hspec.1 with h1 | h1
              · rw [hacc1] at h1
                cases h1
                rcases ha1.1 with h2 | h2
                · exact Or.inl h2
                · exact Or.inr ⟨z, List.mem_cons_self z rest, h2⟩
              · obtain ⟨z2, hz2, hrest⟩ := h1
                exact Or.inr ⟨z2, List.mem_cons_of_mem z hz2, hrest⟩
            · intro z2 hz2
              rcases List.mem_cons.mp hz2 with h3 | h3
              · intro pt hpt
                rw [h3] at hpt
                exact le_trans hba1 (ha1.2.1 pt hpt)
              · exact hspec.2.1 z2 h3
            · intro a ha
              exact le_trans hba1 (ha1.2.2 a ha)

/-- C6: `nearestGrabZone` returns null exactly when the physical-pixel
distance from the cursor to every zone waypoint exceeds the 12 px snap
radius, for every square-root function; and when the cursor coincides
exactly with some zone waypoint (so that the source's distance is
`sqrt 0 = 0`, captured by the two hypotheses on `sqrtQ`), it returns a
closest hit carrying a genuine zone, waypoint and its distance, with
distance exactly 0. -/
theorem claim_C6 (sqrtQ : ℚ → ℚ) (cur : UV) (zones : List GrabZone) (iw ih : ℚ)
    (hs0 : sqrtQ 0 = 0) (hsnn : ∀ q, 0 ≤ sqrtQ q) :
    (nearestGrabZone sqrtQ cur zones iw ih = none ↔
      ∀ z ∈ zones, ∀ pt ∈ z.path, GRAB_SNAP_PX < screenDist sqrtQ cur pt iw ih) ∧
    ((∃ z ∈ zones, cur ∈ z.path) →
      ∃ b, nearestGrabZone sqrtQ cur zones iw ih = some b ∧
        b.dist = 0 ∧ b.zone ∈ zones ∧ b.point ∈ b.zone.path ∧
        b.dist = screenDist sqrtQ cur b.point iw ih ∧
        ∀ z ∈ zones, ∀ pt ∈ z.path, b.dist ≤ screenDist sqrtQ cur pt iw ih) := by
  have hself : screenDist sqrtQ cur cur iw ih = 0 := by
    unfold screenDist
    rw [show ((cur.x - cur.x) * iw) ^ 2 + ((cur.y - cur.y) * ih) ^ 2 = 0 by ring]
    exact hs0
  have hspec := foldZones_spec sqrtQ cur iw ih zones none
  constructor
  · cases hres : zones.foldl (scanZone sqrtQ cur iw ih) none with
    | none =>
        have hall := (hspec.1).mp hres
        have hN : nearestGrabZone sqrtQ cur zones iw ih = none := by
          unfold nearestGrabZone
          rw [hres]
        rw [hN]
        constructor
        · intro _ z hz pt hpt
          rw [hall.2 z hz] at hpt
          exact absurd hpt (List.not_mem_nil pt)
        · intro _
          rfl
    | some b =>
        have hb := hspec.2 b hres
        have hsound : b.dist = screenDist sqrtQ cur b.point iw ih ∧
            ∃ z ∈ zones, b.point ∈ z.path := by
          rcases hb.1 with h1 | h1
          · exact Option.noConfusion h1
          · obtain ⟨z, hz, hbz, hbp, hbd⟩ := h1
            exact ⟨hbd, z, hz, hbp⟩
        have hN : nearestGrabZone sqrtQ cur zones iw ih =
            if b.dist ≤ GRAB_SNAP_PX then some b else none := by
          unfold nearestGrabZone
          rw [hres]
        rw [hN]
        by_cases hle : b.dist ≤ GRAB_SNAP_PX
        · rw [if_pos hle]
          constructor
          · intro h
            exact Option.noConfusion h
          · intro hall
            exfalso
            obtain ⟨hbd, z, hz, hbp⟩ := hsound
            have := hall z hz b.point hbp
            rw [← hbd] at this
            exact absurd hle (not_le.mpr this)
        · rw [if_neg hle]
          constructor
          · intro _ z hz pt hpt
            exact lt_of_lt_of_le (not_le.mp hle) (hb.2.1 z hz pt hpt)
          · intro _
            rfl
  · rintro ⟨z0, hz0, hcur⟩
    cases hres : zones.foldl (scanZone sqrtQ cur iw ih) none with
    | none =>
        exfalso
        have hall := (hspec.1).mp hres
        rw [hall.2 z0 hz0] at hcur
        exact absurd hcur (List.not_mem_nil cur)
    | some b =>
        have hb := hspec.2 b hres
        have hmin : b.dist ≤ 0 := by
          have := hb.2.1 z0 hz0 cur hcur
          rw [hself] at this
          exact this
        have hsound : b.dist = screenDist sqrtQ cur b.point iw ih ∧
            b.zone ∈ zones ∧ b.point ∈ b.zone.path := by
          rcases hb.1 with h1 | h1
          · exact Option.noConfusion h1
          · obtain ⟨z, hz, hbz, hbp, hbd⟩ := h1
            refine ⟨hbd, ?_, ?_⟩
            · rw [hbz]; exact hz
            · rw [hbz]; exact hbp
        have hnn : 0 ≤ b.dist := by
          rw [hsound.1]
          exact hsnn _
        have hzero : b.dist = 0 := le_antisymm hmin hnn
        refine ⟨b, ?_, hzero, hsound.2.1, hsound.2.2, hsound.1, hb.2.1⟩
        have hN : nearestGrabZone sqrtQ cur zones iw ih =
            if b.dist ≤ GRAB_SNAP_PX then some b else none := by
          unfold nearestGrabZone
          rw [hres]
        rw [hN, if_pos (by rw [hzero]; norm_num [GRAB_SNAP_PX])]

theorem claim_C6_witness :
    (fun q : ℚ => |q|) 0 = 0 ∧ (∀ q : ℚ, 0 ≤ (fun q : ℚ => |q|) q) ∧
    (nearestGrabZone (fun q => |q|) ⟨1/2, 1/2⟩
        [⟨[⟨0, 0⟩, ⟨0, 1/2⟩], ⟨1, 0⟩⟩] 1920 1080 = none ↔
      ∀ z ∈ [(⟨[⟨0, 0⟩, ⟨0, 1/2⟩], ⟨1, 0⟩⟩ : GrabZone)], ∀ pt ∈ z.path,
        GRAB_SNAP_PX < screenDist (fun q => |q|) ⟨1/2, 1/2⟩ pt 1920 1080) :=
  ⟨abs_zero, fun q => abs_nonneg q,
   (claim_C6 (fun q => |q|) ⟨1/2, 1/2⟩ [⟨[⟨0, 0⟩, ⟨0, 1/2⟩], ⟨1, 0⟩⟩] 1920 1080
      abs_zero (fun q => abs_nonneg q)).1⟩

end Sticker


namespace Sticker

/- ── crack generator lemmas and claim C5 ── -/

theorem firstMinEdge_cases (o : UV) :
    (firstMinEdge ⟨⟨0, o.y⟩, o.x⟩
        [⟨⟨1, o.y⟩, 1 - o.x⟩, ⟨⟨o.x, 0⟩, o.y⟩, ⟨⟨o.x, 1⟩, 1 - o.y⟩] =
          ⟨⟨0, o.y⟩, o.x⟩ ∧ o.x ≤ o.y ∧ o.x ≤ 1 - o.y) ∨
    (firstMinEdge ⟨⟨0, o.y⟩, o.x⟩
        [⟨⟨1, o.y⟩, 1 - o.x⟩, ⟨⟨o.x, 0⟩, o.y⟩, ⟨⟨o.x, 1⟩, 1 - o.y⟩] =
          ⟨⟨1, o.y⟩, 1 - o.x⟩ ∧ 1 - o.x ≤ o.y ∧ 1 - o.x ≤ 1 - o.y) ∨
    (firstMinEdge ⟨⟨0, o.y⟩, o.x⟩
        [⟨⟨1, o.y⟩, 1 - o.x⟩, ⟨⟨o.x, 0⟩, o.y⟩, ⟨⟨o.x, 1⟩, 1 - o.y⟩] =
          ⟨⟨o.x, 0⟩, o.y⟩ ∧ o.y ≤ o.x ∧ o.y ≤ 1 - o.x) ∨
    (firstMinEdge ⟨⟨0, o.y⟩, o.x⟩
        [⟨⟨1, o.y⟩, 1 - o.x⟩, ⟨⟨o.x, 0⟩, o.y⟩, ⟨⟨o.x, 1⟩, 1 - o.y⟩] =
          ⟨⟨o.x, 1⟩, 1 - o.y⟩ ∧ 1 - o.y ≤ o.x ∧ 1 - o.y ≤ 1 - o.x) := by
  unfold firstMinEdge
  simp only [List.foldl_cons, List.foldl_nil]
  split_ifs <;> dsimp only at *
  all_goals first
    | (left; exact ⟨rfl, by linarith, by linarith⟩)
    | (right; left; exact ⟨rfl, by linarith, by linarith⟩)
    | (right; right; left; exact ⟨rfl, by linarith, by linarith⟩)
    | (right; right; right; exact ⟨rfl, by linarith, by linarith⟩)

theorem jag_taper_bound (s i : ℕ) (hs : 1 ≤ s) (hi1 : 1 ≤ i) (his : i ≤ s) :
    (27/400 : ℚ) * (1 - (i : ℚ) / (s : ℚ) * (1/2)) ≤ 1/20 + (3/200) * ((s : ℚ) - 1) := by
  have hs0 : (0 : ℚ) < (s : ℚ) := by
    have : 0 < s := by omega
    exact_mod_cast this
  have hi : (1 : ℚ) ≤ (i : ℚ) := by exact_mod_cast hi1
  have hts : (1 : ℚ) / (s : ℚ) ≤ (i : ℚ) / (s : ℚ) := by gcongr
  have hmono : (27/400 : ℚ) * (1 - (i : ℚ) / (s : ℚ) * (1/2)) ≤
      (27/400 : ℚ) * (1 - 1 / (s : ℚ) * (1/2)) := by nlinarith
  have hexpr : 1/20 + (3/200) * ((s:ℚ) - 1) - (27/400) * (1 - 1/(s:ℚ) * (1/2)) =
      (12*(s:ℚ)^2 - 26*(s:ℚ) + 27) / (800*(s:ℚ)) := by
    field_simp
    ring
  have hnum : (0:ℚ) ≤ 12*(s:ℚ)^2 - 26*(s:ℚ) + 27 := by
    nlinarith [sq_nonneg (12*(s:ℚ) - 13)]
  have hq : (0:ℚ) ≤ (12*(s:ℚ)^2 - 26*(s:ℚ) + 27) / (800*(s:ℚ)) :=
    div_nonneg hnum (by positivity)
  linarith

theorem crack_perp_bound (op d e : ℚ) (s i : ℕ) (hs : 1 ≤ s) (hi1 : 1 ≤ i) (his : i ≤ s)
    (hceil : ((s : ℚ) - 1) * (3/200) < d)
    (hdop : d ≤ op) (hop1 : d ≤ 1 - op)
    (he : |e| ≤ (27/400) * (1 - (i : ℚ) / (s : ℚ) * (1/2))) :
    -1/20 ≤ op + e ∧ op + e ≤ 21/20 := by
  have hJ := jag_taper_bound s i hs hi1 his
  have he2 : |e| ≤ 1/20 + d := le_trans he (le_trans hJ (by linarith))
  obtain ⟨hl, hr⟩ := abs_le.mp he2
  constructor <;> linarith

theorem crackWaypoint_x (noise : ℚ → ℚ → ℚ) (P : CrackParams) (o : UV)
    (dx dy px py : ℚ) (s j : ℕ) :
    (crackWaypoint noise P o dx dy px py s j).x =
      o.x + dx * (((j : ℚ) + 1) / (s : ℚ)) +
        px * ((noise ((o.x + dx * (((j : ℚ) + 1) / (s : ℚ))) * (73/10) + ((j : ℚ) + 1) * (31/100))
                     ((o.y + dy * (((j : ℚ) + 1) / (s : ℚ))) * (51/10) + ((j : ℚ) + 1) * (17/100)) - 1/2)
              * P.TEAR_JAGGEDNESS * (3/10) * (1 - (((j : ℚ) + 1) / (s : ℚ)) * (1/2))) := rfl

theorem crackWaypoint_y (noise : ℚ → ℚ → ℚ) (P : CrackParams) (o : UV)
    (dx dy px py : ℚ) (s j : ℕ) :
    (crackWaypoint noise P o dx dy px py s j).y =
      o.y + dy * (((j : ℚ) + 1) / (s : ℚ)) +
        py * ((noise ((o.x + dx * (((j : ℚ) + 1) / (s : ℚ))) * (73/10) + ((j : ℚ) + 1) * (31/100))
                     ((o.y + dy * (((j : ℚ) + 1) / (s : ℚ))) * (51/10) + ((j : ℚ) + 1) * (17/100)) - 1/2)
              * P.TEAR_JAGGEDNESS * (3/10) * (1 - (((j : ℚ) + 1) / (s : ℚ)) * (1/2))) := rfl

theorem jag_abs_le (nu t : ℚ) (hnu0 : 0 ≤ nu) (hnu1 : nu ≤ 1) (ht1 : t ≤ 1) :
    |(nu - 1/2) * (9/20 : ℚ) * (3/10) * (1 - t * (1/2))| ≤ (27/400) * (1 - t * (1/2)) := by
  have htap : (0 : ℚ) ≤ 1 - t * (1/2) := by linarith
  have h1 : |nu - 1/2| ≤ 1/2 := by
    rw [abs_le]
    constructor <;> linarith
  rw [abs_mul, abs_mul, abs_mul, abs_of_nonneg htap,
    abs_of_nonneg (by norm_num : (0:ℚ) ≤ 9/20), abs_of_nonneg (by norm_num : (0:ℚ) ≤ 3/10)]
  nlinarith [abs_nonneg (nu - 1/2)]

theorem axis_interp_bounds (ox dx t : ℚ) (hox0 : 0 ≤ ox) (hox1 : ox ≤ 1)
    (hend : ox + dx = 0 ∨ ox + dx = 1) (ht0 : 0 ≤ t) (ht1 : t ≤ 1) :
    0 ≤ ox + dx * t ∧ ox + dx * t ≤ 1 := by
  rcases hend with h | h
  · have hdx : dx = -ox := by linarith
    rw [hdx]
    constructor <;> nlinarith
  · have hdx : dx = 1 - ox := by linarith
    rw [hdx]
    constructor <;> nlinarith

theorem perp_coord_bounds (op py jag t d : ℚ)
    (hop0 : 0 ≤ op) (hop1 : op ≤ 1)
    (hjag : |py * jag| ≤ (27/400) * (1 - t * (1/2)))
    (hJd : (27/400) * (1 - t * (1/2)) ≤ 1/20 + d)
    (hd1 : d ≤ op) (hd2 : d ≤ 1 - op) :
    -1/20 ≤ op + py * jag ∧ op + py * jag ≤ 21/20 := by
  obtain ⟨hl, hr⟩ := abs_le.mp (le_trans hjag hJd)
  constructor <;> linarith

theorem crackWaypoint_horiz (noise : ℚ → ℚ → ℚ)
    (hn : ∀ x y, 0 ≤ noise x y ∧ noise x y ≤ 1) (o : UV)
    (hx0 : 0 ≤ o.x) (hx1 : o.x ≤ 1) (hy0 : 0 ≤ o.y) (hy1 : o.y ≤ 1)
    (dx py : ℚ) (hpy : py = 1 ∨ py = -1)
    (hend : o.x + dx = 0 ∨ o.x + dx = 1)
    (s : ℕ) (hs : 1 ≤ s)
    (hceil : ((s : ℚ) - 1) * (3/200) < |dx|)
    (hd1 : |dx| ≤ o.y) (hd2 : |dx| ≤ 1 - o.y)
    (j : ℕ) (hj : j < s) :
    (-1/20 ≤ (crackWaypoint noise defaultCrackParams o dx 0 0 py s j).x ∧
      (crackWaypoint noise defaultCrackParams o dx 0 0 py s j).x ≤ 21/20 ∧
      -1/20 ≤ (crackWaypoint noise defaultCrackParams o dx 0 0 py s j).y ∧
      (crackWaypoint noise defaultCrackParams o dx 0 0 py s j).y ≤ 21/20) ∧
    (j + 1 = s → ((crackWaypoint noise defaultCrackParams o dx 0 0 py s j).x = 0 ∨
      (crackWaypoint noise defaultCrackParams o dx 0 0 py s j).x = 1)) := by
  have hs0 : (0 : ℚ) < (s : ℚ) := by
    have h : 0 < s := by omega
    exact_mod_cast h
  have ht0 : (0 : ℚ) ≤ ((j : ℚ) + 1) / (s : ℚ) := by positivity
  have hjs : ((j : ℚ) + 1) ≤ (s : ℚ) := by exact_mod_cast hj
  have ht1 : ((j : ℚ) + 1) / (s : ℚ) ≤ 1 := by
    rw [div_le_one hs0]
    exact hjs
  have hT9 : defaultCrackParams.TEAR_JAGGEDNESS = (9/20 : ℚ) := rfl
  obtain ⟨hnu0, hnu1⟩ := hn
    ((o.x + dx * (((j : ℚ) + 1) / (s : ℚ))) * (73/10) + ((j : ℚ) + 1) * (31/100))
    ((o.y + 0 * (((j : ℚ) + 1) / (s : ℚ))) * (51/10) + ((j : ℚ) + 1) * (17/100))
  have hjagfull := jag_abs_le
    (noise ((o.x + dx * (((j : ℚ) + 1) / (s : ℚ))) * (73/10) + ((j : ℚ) + 1) * (31/100))
           ((o.y + 0 * (((j : ℚ) + 1) / (s : ℚ))) * (51/10) + ((j : ℚ) + 1) * (17/100)))
    (((j : ℚ) + 1) / (s : ℚ)) hnu0 hnu1 ht1
  have hpyjag : |py * ((noise
        ((o.x + dx * (((j : ℚ) + 1) / (s : ℚ))) * (73/10) + ((j : ℚ) + 1) * (31/100))
        ((o.y + 0 * (((j : ℚ) + 1) / (s : ℚ))) * (51/10) + ((j : ℚ) + 1) * (17/100)) - 1/2)
      * (9/20) * (3/10) * (1 - (((j : ℚ) + 1) / (s : ℚ)) * (1/2)))| ≤
      (27/400) * (1 - (((j : ℚ) + 1) / (s : ℚ)) * (1/2)) := by
    rcases hpy with h | h <;> rw [h]
    · simpa using hjagfull
    · simpa using hjagfull
  have hJd : (27/400) * (1 - (((j : ℚ) + 1) / (s : ℚ)) * (1/2)) ≤ 1/20 + |dx| := by
    have hc : ((j + 1 : ℕ) : ℚ) = (j : ℚ) + 1 := by push_cast; ring
    have hjt := jag_taper_bound s (j + 1) hs (by omega) (by omega)
    rw [hc] at hjt
    linarith
  have hx := axis_interp_bounds o.x dx (((j : ℚ) + 1) / (s : ℚ)) hx0 hx1 hend ht0 ht1
  have hyb := perp_coord_bounds o.y py
    ((noise ((o.x + dx * (((j : ℚ) + 1) / (s : ℚ))) * (73/10) + ((j : ℚ) + 1) * (31/100))
            ((o.y + 0 * (((j : ℚ) + 1) / (s : ℚ))) * (51/10) + ((j : ℚ) + 1) * (17/100)) - 1/2)
      * (9/20) * (3/10) * (1 - (((j : ℚ) + 1) / (s : ℚ)) * (1/2)))
    (((j : ℚ) + 1) / (s : ℚ)) |dx| hy0 hy1 hpyjag hJd hd1 hd2
  constructor
  · rw [crackWaypoint_x, crackWaypoint_y, hT9]
    simp only [zero_mul, add_zero] at hyb ⊢
    exact ⟨by linarith [hx.1], by linarith [hx.2], hyb.1, hyb.2⟩
  · intro hlast
    rw [crackWaypoint_x]
    have hT1 : ((j : ℚ) + 1) / (s : ℚ) = 1 := by
      have h : ((j : ℚ) + 1) = (s : ℚ) := by exact_mod_cast hlast
      rw [h]
      exact div_self (ne_of_gt hs0)
    rw [hT1]
    rcases hend with h | h
    · left; linear_combination h
    · right; linear_combination h

theorem crackWaypoint_vert (noise : ℚ → ℚ → ℚ)
    (hn : ∀ x y, 0 ≤ noise x y ∧ noise x y ≤ 1) (o : UV)
    (hx0 : 0 ≤ o.x) (hx1 : o.x ≤ 1) (hy0 : 0 ≤ o.y) (hy1 : o.y ≤ 1)
    (dy px : ℚ) (hpx : px = 1 ∨ px = -1)
    (hend : o.y + dy = 0 ∨ o.y + dy = 1)
    (s : ℕ) (hs : 1 ≤ s)
    (hceil : ((s : ℚ) - 1) * (3/200) < |dy|)
    (hd1 : |dy| ≤ o.x) (hd2 : |dy| ≤ 1 - o.x)
    (j : ℕ) (hj : j < s) :
    (-1/20 ≤ (crackWaypoint noise defaultCrackParams o 0 dy px 0 s j).x ∧
      (crackWaypoint noise defaultCrackParams o 0 dy px 0 s j).x ≤ 21/20 ∧
      -1/20 ≤ (crackWaypoint noise defaultCrackParams o 0 dy px 0 s j).y ∧
      (crackWaypoint noise defaultCrackParams o 0 dy px 0 s j).y ≤ 21/20) ∧
    (j + 1 = s → ((crackWaypoint noise defaultCrackParams o 0 dy px 0 s j).y = 0 ∨
      (crackWaypoint noise defaultCrackParams o 0 dy px 0 s j).y = 1)) := by
  have hs0 : (0 : ℚ) < (s : ℚ) := by
    have h : 0 < s := by omega
    exact_mod_cast h
  have ht0 : (0 : ℚ) ≤ ((j : ℚ) + 1) / (s : ℚ) := by positivity
  have hjs : ((j : ℚ) + 1) ≤ (s : ℚ) := by exact_mod_cast hj
  have ht1 : ((j : ℚ) + 1) / (s : ℚ) ≤ 1 := by
    rw [div_le_one hs0]
    exact hjs
  have hT9 : defaultCrackParams.TEAR_JAGGEDNESS = (9/20 : ℚ) := rfl
  obtain ⟨hnu0, hnu1⟩ := hn
    ((o.x + 0 * (((j : ℚ) + 1) / (s : ℚ))) * (73/10) + ((j : ℚ) + 1) * (31/100))
    ((o.y + dy * (((j : ℚ) + 1) / (s : ℚ))) * (51/10) + ((j : ℚ) + 1) * (17/100))
  have hjagfull := jag_abs_le
    (noise ((o.x + 0 * (((j : ℚ) + 1) / (s : ℚ))) * (73/10) + ((j : ℚ) + 1) * (31/100))
           ((o.y + dy * (((j : ℚ) + 1) / (s : ℚ))) * (51/10) + ((j : ℚ) + 1) * (17/100)))
    (((j : ℚ) + 1) / (s : ℚ)) hnu0 hnu1 ht1
  have hpxjag : |px * ((noise
        ((o.x + 0 * (((j : ℚ) + 1) / (s : ℚ))) * (73/10) + ((j : ℚ) + 1) * (31/100))
        ((o.y + dy * (((j : ℚ) + 1) / (s : ℚ))) * (51/10) + ((j : ℚ) + 1) * (17/100)) - 1/2)
      * (9/20) * (3/10) * (1 - (((j : ℚ) + 1) / (s : ℚ)) * (1/2)))| ≤
      (27/400) * (1 - (((j : ℚ) + 1) / (s : ℚ)) * (1/2)) := by
    rcases hpx with h | h <;> rw [h]
    · simpa using hjagfull
    · simpa using hjagfull
  have hJd : (27/400) * (1 - (((j : ℚ) + 1) / (s : ℚ)) * (1/2)) ≤ 1/20 + |dy| := by
    have hc : ((j + 1 : ℕ) : ℚ) = (j : ℚ) + 1 := by push_cast; ring
    have hjt := jag_taper_bound s (j + 1) hs (by omega) (by omega)
    rw [hc] at hjt
    linarith
  have hy := axis_interp_bounds o.y dy (((j : ℚ) + 1) / (s : ℚ)) hy0 hy1 hend ht0 ht1
  have hxb := perp_coord_bounds o.x px
    ((noise ((o.x + 0 * (((j : ℚ) + 1) / (s : ℚ))) * (73/10) + ((j : ℚ) + 1) * (31/100))
            ((o.y + dy * (((j : ℚ) + 1) / (s : ℚ))) * (51/10) + ((j : ℚ) + 1) * (17/100)) - 1/2)
      * (9/20) * (3/10) * (1 - (((j : ℚ) + 1) / (s : ℚ)) * (1/2)))
    (((j : ℚ) + 1) / (s : ℚ)) |dy| hx0 hx1 hpxjag hJd hd1 hd2
  constructor
  · rw [crackWaypoint_x, crackWaypoint_y, hT9]
    simp only [zero_mul, add_zero] at hxb ⊢
    exact ⟨hxb.1, hxb.2, by linarith [hy.1], by linarith [hy.2]⟩
  · intro hlast
    rw [crackWaypoint_y]
    have hT1 : ((j : ℚ) + 1) / (s : ℚ) = 1 := by
      have h : ((j : ℚ) + 1) = (s : ℚ) := by exact_mod_cast hlast
      rw [h]
      exact div_self (ne_of_gt hs0)
    rw [hT1]
    rcases hend with h | h
    · left; linear_combination h
    · right; linear_combination h

theorem ceil_steps_facts (d : ℚ) (hd : 0 < d) :
    1 ≤ (⌈d / (3/200 : ℚ)⌉).toNat ∧
    ((((⌈d / (3/200 : ℚ)⌉).toNat : ℕ) : ℚ) - 1) * (3/200) < d := by
  have hq : 0 < d / (3/200 : ℚ) := by positivity
  have hc1 : (1 : ℤ) ≤ ⌈d / (3/200 : ℚ)⌉ := Int.ceil_pos.mpr hq
  have hcast : (((⌈d / (3/200 : ℚ)⌉).toNat : ℕ) : ℚ) = ((⌈d / (3/200 : ℚ)⌉ : ℤ) : ℚ) := by
    exact_mod_cast congrArg (fun z : ℤ => (z : ℚ)) (Int.toNat_of_nonneg (by omega))
  constructor
  · omega
  · rw [hcast]
    have hlt : ((⌈d / (3/200 : ℚ)⌉ : ℤ) : ℚ) < d / (3/200) + 1 := Int.ceil_lt_add_one _
    have h2 : ((⌈d / (3/200 : ℚ)⌉ : ℤ) : ℚ) - 1 < d / (3/200) := by linarith
    calc (((⌈d / (3/200 : ℚ)⌉ : ℤ) : ℚ) - 1) * (3/200) < (d / (3/200)) * (3/200) := by
          apply mul_lt_mul_of_pos_right h2
          norm_num
      _ = d := by field_simp

theorem generateCrack_eq_left (noise : ℚ → ℚ → ℚ) (o : UV)
    (hx0 : 0 ≤ o.x) (hxpos : 0 < o.x)
    (hne : firstMinEdge ⟨⟨0, o.y⟩, o.x⟩
        [⟨⟨1, o.y⟩, 1 - o.x⟩, ⟨⟨o.x, 0⟩, o.y⟩, ⟨⟨o.x, 1⟩, 1 - o.y⟩] = ⟨⟨0, o.y⟩, o.x⟩) :
    generateCrack noise defaultCrackParams o =
      o :: (List.range ((⌈o.x / (3/200 : ℚ)⌉).toNat)).map
        (crackWaypoint noise defaultCrackParams o (-o.x) 0 0 (-1)
          ((⌈o.x / (3/200 : ℚ)⌉).toNat)) := by
  have hnz : o.x ≠ 0 := ne_of_gt hxpos
  have hS : defaultCrackParams.CRACK_STEP_SIZE = (3/200 : ℚ) := rfl
  unfold generateCrack
  rw [hne]
  simp only [hS, zero_sub, sub_self, abs_neg, abs_zero, add_zero,
    abs_of_nonneg hx0, if_neg hnz, neg_div, div_self hnz, zero_div, neg_zero]

theorem generateCrack_eq_right (noise : ℚ → ℚ → ℚ) (o : UV)
    (hx1 : o.x ≤ 1) (hxlt : o.x < 1)
    (hne : firstMinEdge ⟨⟨0, o.y⟩, o.x⟩
        [⟨⟨1, o.y⟩, 1 - o.x⟩, ⟨⟨o.x, 0⟩, o.y⟩, ⟨⟨o.x, 1⟩, 1 - o.y⟩] = ⟨⟨1, o.y⟩, 1 - o.x⟩) :
    generateCrack noise defaultCrackParams o =
      o :: (List.range ((⌈(1 - o.x) / (3/200 : ℚ)⌉).toNat)).map
        (crackWaypoint noise defaultCrackParams o (1 - o.x) 0 0 1
          ((⌈(1 - o.x) / (3/200 : ℚ)⌉).toNat)) := by
  have hnz : 1 - o.x ≠ 0 := by
    intro h
    exact absurd (by linarith : o.x = 1) (ne_of_lt hxlt)
  have hge : (0 : ℚ) ≤ 1 - o.x := by linarith
  have hS : defaultCrackParams.CRACK_STEP_SIZE = (3/200 : ℚ) := rfl
  unfold generateCrack
  rw [hne]
  simp only [hS, sub_self, abs_zero, add_zero, abs_of_nonneg hge, if_neg hnz,
    div_self hnz, zero_div, neg_zero]

theorem generateCrack_eq_top (noise : ℚ → ℚ → ℚ) (o : UV)
    (hy0 : 0 ≤ o.y) (hypos : 0 < o.y)
    (hne : firstMinEdge ⟨⟨0, o.y⟩, o.x⟩
        [⟨⟨1, o.y⟩, 1 - o.x⟩, ⟨⟨o.x, 0⟩, o.y⟩, ⟨⟨o.x, 1⟩, 1 - o.y⟩] = ⟨⟨o.x, 0⟩, o.y⟩) :
    generateCrack noise defaultCrackParams o =
      o :: (List.range ((⌈o.y / (3/200 : ℚ)⌉).toNat)).map
        (crackWaypoint noise defaultCrackParams o 0 (-o.y) 1 0
          ((⌈o.y / (3/200 : ℚ)⌉).toNat)) := by
  have hnz : o.y ≠ 0 := ne_of_gt hypos
  have hS : defaultCrackParams.CRACK_STEP_SIZE = (3/200 : ℚ) := rfl
  unfold generateCrack
  rw [hne]
  simp only [hS, zero_sub, sub_self, abs_neg, abs_zero, zero_add,
    abs_of_nonneg hy0, if_neg hnz, neg_div, div_self hnz, zero_div, neg_zero, neg_neg]

theorem generateCrack_eq_bottom (noise : ℚ → ℚ → ℚ) (o : UV)
    (hy1 : o.y ≤ 1) (hylt : o.y < 1)
    (hne : firstMinEdge ⟨⟨0, o.y⟩, o.x⟩
        [⟨⟨1, o.y⟩, 1 - o.x⟩, ⟨⟨o.x, 0⟩, o.y⟩, ⟨⟨o.x, 1⟩, 1 - o.y⟩] = ⟨⟨o.x, 1⟩, 1 - o.y⟩) :
    generateCrack noise defaultCrackParams o =
      o :: (List.range ((⌈(1 - o.y) / (3/200 : ℚ)⌉).toNat)).map
        (crackWaypoint noise defaultCrackParams o 0 (1 - o.y) (-1) 0
          ((⌈(1 - o.y) / (3/200 : ℚ)⌉).toNat)) := by
  have hnz : 1 - o.y ≠ 0 := by
    intro h
    exact absurd (by linarith : o.y = 1) (ne_of_lt hylt)
  have hge : (0 : ℚ) ≤ 1 - o.y := by linarith
  have hS : defaultCrackParams.CRACK_STEP_SIZE = (3/200 : ℚ) := rfl
  unfold generateCrack
  rw [hne]
  simp only [hS, sub_self, abs_zero, zero_add, abs_of_nonneg hge, if_neg hnz,
    div_self hnz, zero_div, neg_zero]

theorem crackWaypoint_zero (noise : ℚ → ℚ → ℚ) (o : UV) :
    crackWaypoint noise defaultCrackParams o 0 0 0 0 1 0 = o := by
  unfold crackWaypoint
  simp

theorem generateCrack_eq_degen (noise : ℚ → ℚ → ℚ) (o : UV) (e : Edge)
    (hne : firstMinEdge ⟨⟨0, o.y⟩, o.x⟩
        [⟨⟨1, o.y⟩, 1 - o.x⟩, ⟨⟨o.x, 0⟩, o.y⟩, ⟨⟨o.x, 1⟩, 1 - o.y⟩] = e)
    (htx : e.target.x = o.x) (hty : e.target.y = o.y) :
    generateCrack noise defaultCrackParams o = [o, o] := by
  have hS : defaultCrackParams.CRACK_STEP_SIZE = (3/200 : ℚ) := rfl
  have hsteps : (⌈((1 : ℚ)/1000000) / (3/200 : ℚ)⌉).toNat = 1 := by
    have h1 : ((1 : ℚ)/1000000) / (3/200 : ℚ) = 1/15000 := by norm_num
    have h2 : ⌈(1/15000 : ℚ)⌉ = 1 := by
      rw [Int.ceil_eq_iff] <;> norm_num
    rw [h1, h2]
    rfl
  unfold generateCrack
  simp only [hne]
  rw [htx, hty]
  simp only [hS, sub_self, abs_zero, add_zero, zero_div, neg_zero, if_true]
  rw [hsteps]
  rw [show List.range 1 = [0] from rfl]
  simp only [List.map_cons, List.map_nil, crackWaypoint_zero]

theorem cons_map_range_getLast (f : ℕ → UV) (s : ℕ) (hs : 1 ≤ s) (o : UV) :
    (o :: (List.range s).map f).getLast? = some (f (s - 1)) := by
  obtain ⟨n, rfl⟩ : ∃ n, s = n + 1 := ⟨s - 1, by omega⟩
  rw [List.range_succ, List.map_append]
  rw [show o :: ((List.range n).map f ++ List.map f [n]) =
    (o :: (List.range n).map f) ++ [f n] from by simp]
  rw [List.getLast?_concat]
  simp

/-- C5 (amended): for every origin in the unit square and every pure noise
function with values in `[0,1]` (the specification's contract for
`deterministicNoise`), the crack path's first waypoint equals the origin
exactly, its last waypoint lies within 0.05 UV units of a viewport boundary,
and every waypoint's coordinates stay within `[-0.05, 1.05]`.  The claim's
further assertion that all output is clamped to `[0,1]` with the jitter
tapered to zero at the target edge is false of the code: `generateCrack`
performs no clamping and its taper factor `(1 - t * 0.5)` is 0.5, not 0, at
the edge — see the counterexample. -/
theorem claim_C5 (noise : ℚ → ℚ → ℚ)
    (hn : ∀ x y, 0 ≤ noise x y ∧ noise x y ≤ 1) (o : UV)
    (hx0 : 0 ≤ o.x) (hx1 : o.x ≤ 1) (hy0 : 0 ≤ o.y) (hy1 : o.y ≤ 1) :
    (generateCrack noise defaultCrackParams o).head? = some o ∧
    (∃ w, (generateCrack noise defaultCrackParams o).getLast? = some w ∧
      nearViewportBoundary w) ∧
    (∀ w ∈ generateCrack noise defaultCrackParams o,
      -1/20 ≤ w.x ∧ w.x ≤ 21/20 ∧ -1/20 ≤ w.y ∧ w.y ≤ 21/20) := by
  have hbox : -1/20 ≤ o.x ∧ o.x ≤ 21/20 ∧ -1/20 ≤ o.y ∧ o.y ≤ 21/20 :=
    ⟨by linarith, by linarith, by linarith, by linarith⟩
  rcases firstMinEdge_cases o with ⟨hne, hca, hcb⟩ | ⟨hne, hca, hcb⟩ |
    ⟨hne, hca, hcb⟩ | ⟨hne, hca, hcb⟩
  · -- left edge
    rcases eq_or_lt_of_le hx0 with hz | hpos
    · have hgc := generateCrack_eq_degen noise o _ hne hz rfl
      rw [hgc]
      refine ⟨rfl, ⟨o, rfl, Or.inl ?_⟩, ?_⟩
      · rw [← hz]; norm_num
      · intro w hw
        have hw2 : w = o := by
          rcases List.mem_cons.mp hw with h | h
          · exact h
          · simpa using h
        rw [hw2]; exact hbox
    · obtain ⟨hs1, hceil⟩ := ceil_steps_facts o.x hpos
      have habs : |(-o.x)| = o.x := by rw [abs_neg, abs_of_nonneg hx0]
      have hhz := fun (j : ℕ) (hj : j < (⌈o.x / (3/200 : ℚ)⌉).toNat) =>
        crackWaypoint_horiz noise hn o hx0 hx1 hy0 hy1 (-o.x) (-1) (Or.inr rfl)
          (Or.inl (by ring)) _ hs1 (by rw [habs]; exact hceil)
          (by rw [habs]; exact hca) (by rw [habs]; linarith) j hj
      have hgc := generateCrack_eq_left noise o hx0 hpos hne
      rw [hgc]
      refine ⟨rfl, ?_, ?_⟩
      · rw [cons_map_range_getLast _ _ hs1]
        refine ⟨_, rfl, ?_⟩
        have hlast := (hhz ((⌈o.x / (3/200 : ℚ)⌉).toNat - 1) (by omega)).2 (by omega)
        rcases hlast with h | h
        · exact Or.inl (by rw [h]; norm_num)
        · exact Or.inr (Or.inl (by rw [h]; norm_num))
      · intro w hw
        rcases List.mem_cons.mp hw with h | h
        · rw [h]; exact hbox
        · obtain ⟨j, hj, rfl⟩ : ∃ j, j < (⌈o.x / (3/200 : ℚ)⌉).toNat ∧
              crackWaypoint noise defaultCrackParams o (-o.x) 0 0 (-1)
                ((⌈o.x / (3/200 : ℚ)⌉).toNat) j = w := by
            obtain ⟨j, hj, hjw⟩ := List.mem_map.mp h
            exact ⟨j, List.mem_range.mp hj, hjw⟩
          exact (hhz j hj).1
  · -- right edge
    rcases eq_or_lt_of_le hx1 with hz | hlt
    · have hgc := generateCrack_eq_degen noise o _ hne hz.symm rfl
      rw [hgc]
      refine ⟨rfl, ⟨o, rfl, Or.inr (Or.inl ?_)⟩, ?_⟩
      · rw [hz]; norm_num
      · intro w hw
        have hw2 : w = o := by
          rcases List.mem_cons.mp hw with h | h
          · exact h
          · simpa using h
        rw [hw2]; exact hbox
    · have hpos : 0 < 1 - o.x := by linarith
      obtain ⟨hs1, hceil⟩ := ceil_steps_facts (1 - o.x) hpos
      have habs : |(1 - o.x)| = 1 - o.x := abs_of_nonneg (by linarith)
      have hhz := fun (j : ℕ) (hj : j < (⌈(1 - o.x) / (3/200 : ℚ)⌉).toNat) =>
        crackWaypoint_horiz noise hn o hx0 hx1 hy0 hy1 (1 - o.x) 1 (Or.inl rfl)
          (Or.inr (by ring)) _ hs1 (by rw [habs]; exact hceil)
          (by rw [habs]; exact hca) (by rw [habs]; linarith) j hj
      have hgc := generateCrack_eq_right noise o hx1 hlt hne
      rw [hgc]
      refine ⟨rfl, ?_, ?_⟩
      · rw [cons_map_range_getLast _ _ hs1]
        refine ⟨_, rfl, ?_⟩
        have hlast := (hhz ((⌈(1 - o.x) / (3/200 : ℚ)⌉).toNat - 1) (by omega)).2 (by omega)
        rcases hlast with h | h
        · exact Or.inl (by rw [h]; norm_num)
        · exact Or.inr (Or.inl (by rw [h]; norm_num))
      · intro w hw
        rcases List.mem_cons.mp hw with h | h
        · rw [h]; exact hbox
        · obtain ⟨j, hj, rfl⟩ : ∃ j, j < (⌈(1 - o.x) / (3/200 : ℚ)⌉).toNat ∧
              crackWaypoint noise defaultCrackParams o (1 - o.x) 0 0 1
                ((⌈(1 - o.x) / (3/200 : ℚ)⌉).toNat) j = w := by
            obtain ⟨j, hj, hjw⟩ := List.mem_map.mp h
            exact ⟨j, List.mem_range.mp hj, hjw⟩
          exact (hhz j hj).1
  · -- top edge
    rcases eq_or_lt_of_le hy0 with hz | hpos
    · have hgc := generateCrack_eq_degen noise o _ hne rfl hz
      rw [hgc]
      refine ⟨rfl, ⟨o, rfl, Or.inr (Or.inr (Or.inl ?_))⟩, ?_⟩
      · rw [← hz]; norm_num
      · intro w hw
        have hw2 : w = o := by
          rcases List.mem_cons.mp hw with h | h
          · exact h
          · simpa using h
        rw [hw2]; exact hbox
    · obtain ⟨hs1, hceil⟩ := ceil_steps_facts o.y hpos
      have habs : |(-o.y)| = o.y := by rw [abs_neg, abs_of_nonneg hy0]
      have hhz := fun (j : ℕ) (hj : j < (⌈o.y / (3/200 : ℚ)⌉).toNat) =>
        crackWaypoint_vert noise hn o hx0 hx1 hy0 hy1 (-o.y) 1 (Or.inl rfl)
          (Or.inl (by ring)) _ hs1 (by rw [habs]; exact hceil)
          (by rw [habs]; exact hca) (by rw [habs]; linarith) j hj
      have hgc := generateCrack_eq_top noise o hy0 hpos hne
      rw [hgc]
      refine ⟨rfl, ?_, ?_⟩
      · rw [cons_map_range_getLast _ _ hs1]
        refine ⟨_, rfl, ?_⟩
        have hlast := (hhz ((⌈o.y / (3/200 : ℚ)⌉).toNat - 1) (by omega)).2 (by omega)
        rcases hlast with h | h
        · exact Or.inr (Or.inr (Or.inl (by rw [h]; norm_num)))
        · exact Or.inr (Or.inr (Or.inr (by rw [h]; norm_num)))
      · intro w hw
        rcases List.mem_cons.mp hw with h | h
        · rw [h]; exact hbox
        · obtain ⟨j, hj, rfl⟩ : ∃ j, j < (⌈o.y / (3/200 : ℚ)⌉).toNat ∧
              crackWaypoint noise defaultCrackParams o 0 (-o.y) 1 0
                ((⌈o.y / (3/200 : ℚ)⌉).toNat) j = w := by
            obtain ⟨j, hj, hjw⟩ := List.mem_map.mp h
            exact ⟨j, List.mem_range.mp hj, hjw⟩
          exact (hhz j hj).1
  · -- bottom edge
    rcases eq_or_lt_of_le hy1 with hz | hlt
    · have hgc := generateCrack_eq_degen noise o _ hne rfl hz.symm
      rw [hgc]
      refine ⟨rfl, ⟨o, rfl, Or.inr (Or.inr (Or.inr ?_))⟩, ?_⟩
      · rw [hz]; norm_num
      · intro w hw
        have hw2 : w = o := by
          rcases List.mem_cons.mp hw with h | h
          · exact h
          · simpa using h
        rw [hw2]; exact hbox
    · have hpos : 0 < 1 - o.y := by linarith
      obtain ⟨hs1, hceil⟩ := ceil_steps_facts (1 - o.y) hpos
      have habs : |(1 - o.y)| = 1 - o.y := abs_of_nonneg (by linarith)
      have hhz := fun (j : ℕ) (hj : j < (⌈(1 - o.y) / (3/200 : ℚ)⌉).toNat) =>
        crackWaypoint_vert noise hn o hx0 hx1 hy0 hy1 (1 - o.y) (-1) (Or.inr rfl)
          (Or.inr (by ring)) _ hs1 (by rw [habs]; exact hceil)
          (by rw [habs]; exact hca) (by rw [habs]; linarith) j hj
      have hgc := generateCrack_eq_bottom noise o hy1 hlt hne
      rw [hgc]
      refine ⟨rfl, ?_, ?_⟩
      · rw [cons_map_range_getLast _ _ hs1]
        refine ⟨_, rfl, ?_⟩
        have hlast := (hhz ((⌈(1 - o.y) / (3/200 : ℚ)⌉).toNat - 1) (by omega)).2 (by omega)
        rcases hlast with h | h
        · exact Or.inr (Or.inr (Or.inl (by rw [h]; norm_num)))
        · exact Or.inr (Or.inr (Or.inr (by rw [h]; norm_num)))
      · intro w hw
        rcases List.mem_cons.mp hw with h | h
        · rw [h]; exact hbox
        · obtain ⟨j, hj, rfl⟩ : ∃ j, j < (⌈(1 - o.y) / (3/200 : ℚ)⌉).toNat ∧
              crackWaypoint noise defaultCrackParams o 0 (1 - o.y) (-1) 0
                ((⌈(1 - o.y) / (3/200 : ℚ)⌉).toNat) j = w := by
            obtain ⟨j, hj, hjw⟩ := List.mem_map.mp h
            exact ⟨j, List.mem_range.mp hj, hjw⟩
          exact (hhz j hj).1

/-- C5 counterexample: with the constant noise 1 (a valid noise value in
`[0,1]`) and the in-square origin `(0.05, 0.055)`, the second waypoint of the
generated crack is `(3/80, -13/3200)`, whose y-coordinate is negative — so
the output is not clamped to `[0,1]` as the claim (quoting section 4.3)
states, refuting that conjunct of C5. -/
theorem claim_C5_counterexample :
    (generateCrack (fun _ _ => 1) defaultCrackParams ⟨1/20, 11/200⟩).get? 1 =
      some ⟨3/80, -13/3200⟩ ∧ (-13/3200 : ℚ) < 0 := by
  have hne : firstMinEdge ⟨⟨0, (⟨1/20, 11/200⟩ : UV).y⟩, (⟨1/20, 11/200⟩ : UV).x⟩
      [⟨⟨1, (⟨1/20, 11/200⟩ : UV).y⟩, 1 - (⟨1/20, 11/200⟩ : UV).x⟩,
       ⟨⟨(⟨1/20, 11/200⟩ : UV).x, 0⟩, (⟨1/20, 11/200⟩ : UV).y⟩,
       ⟨⟨(⟨1/20, 11/200⟩ : UV).x, 1⟩, 1 - (⟨1/20, 11/200⟩ : UV).y⟩] =
      ⟨⟨0, (⟨1/20, 11/200⟩ : UV).y⟩, (⟨1/20, 11/200⟩ : UV).x⟩ := by
    unfold firstMinEdge
    simp only [List.foldl_cons, List.foldl_nil]
    norm_num
  have hgc := generateCrack_eq_left (fun _ _ => 1) ⟨1/20, 11/200⟩
    (by norm_num) (by norm_num) hne
  have hsteps : (⌈(⟨1/20, 11/200⟩ : UV).x / (3/200 : ℚ)⌉).toNat = 4 := by
    have h1 : (⟨1/20, 11/200⟩ : UV).x / (3/200 : ℚ) = 10/3 := by norm_num
    have h2 : ⌈(10/3 : ℚ)⌉ = 4 := by
      rw [Int.ceil_eq_iff] <;> norm_num
    rw [h1, h2]
    rfl
  rw [hgc, hsteps]
  refine ⟨?_, by norm_num⟩
  show some (crackWaypoint (fun _ _ => 1) defaultCrackParams ⟨1/20, 11/200⟩
    (-(⟨1/20, 11/200⟩ : UV).x) 0 0 (-1) 4 0) = some ⟨3/80, -13/3200⟩
  rw [crackWaypoint]
  norm_num [defaultCrackParams]

theorem claim_C5_witness :
    (∀ x y : ℚ, 0 ≤ (fun _ _ => (1/2 : ℚ)) x y ∧ (fun _ _ => (1/2 : ℚ)) x y ≤ 1) ∧
    (0 : ℚ) ≤ (⟨1/2, 1/20⟩ : UV).x ∧ (⟨1/2, 1/20⟩ : UV).x ≤ 1 ∧
    (0 : ℚ) ≤ (⟨1/2, 1/20⟩ : UV).y ∧ (⟨1/2, 1/20⟩ : UV).y ≤ 1 ∧
    (generateCrack (fun _ _ => (1/2 : ℚ)) defaultCrackParams ⟨1/2, 1/20⟩).head? =
      some ⟨1/2, 1/20⟩ :=
  ⟨fun x y => ⟨by norm_num, by norm_num⟩, by norm_num, by norm_num, by norm_num,
   by norm_num,
   (claim_C5 (fun _ _ => (1/2 : ℚ)) (fun x y => ⟨by norm_num, by norm_num⟩)
     ⟨1/2, 1/20⟩ (by norm_num) (by norm_num) (by norm_num) (by norm_num)).1⟩

end Sticker


namespace Sticker

/- ── snap-back convergence (claim C9) ── -/

theorem vlyap_nonneg (p v : ℚ) : 0 ≤ Vlyap p v := by
  unfold Vlyap
  nlinarith [sq_nonneg (p - v), sq_nonneg p, sq_nonneg v]

theorem vlyap_lower (p1 v1 : ℚ) (h : 1/200 ≤ |p1| ∨ 1/500 ≤ |v1|) :
    71/250000 ≤ Vlyap p1 v1 := by
  unfold Vlyap
  rcases h with h | h
  · have h2 : (1/200 : ℚ)^2 ≤ p1^2 := by
      rw [← sq_abs p1]
      exact pow_le_pow_left (by norm_num) h 2
    nlinarith [sq_nonneg (p1 - v1), sq_nonneg v1]
  · have h2 : (1/500 : ℚ)^2 ≤ v1^2 := by
      rw [← sq_abs v1]
      exact pow_le_pow_left (by norm_num) h 2
    nlinarith [sq_nonneg (p1 - v1), sq_nonneg p1]

theorem snap_core (p v v1 p1 : ℚ) (hp0 : 0 ≤ p) (hp1 : p ≤ 1)
    (hv1 : v1 = v * (18/25) + (0 - p) * 18 * (1/60))
    (hp1def : p1 = max 0 (min 1 (p + v1))) :
    0 ≤ p1 ∧ p1 ≤ 1 ∧
    Vlyap p1 v1 ≤ (73/100) * Vlyap p v ∧
    (¬ (|p1| < 1/200 ∧ |v1| < 1/500) → 71/250000 ≤ Vlyap p1 v1) := by
  have hV0 : 0 ≤ Vlyap p v := vlyap_nonneg p v
  have hid : Vlyap (p + v1) v1 = (18/25) * Vlyap p v := by
    unfold Vlyap
    rw [hv1]
    ring
  have hbound : Vlyap p1 v1 ≤ (73/100) * Vlyap p v := by
    rcases le_or_lt (p + v1) 0 with hlow | hx
    · have hp1eq : p1 = 0 := by
        rw [hp1def, max_eq_left]
        exact le_trans (min_le_right 1 (p + v1)) hlow
      rw [hp1eq]
      have hexp : Vlyap 0 v1 = Vlyap (p + v1) v1 - 30 * (p + v1)^2 + 2 * (p + v1) * v1 := by
        unfold Vlyap
        ring
      have h30 : -30 * (p + v1)^2 + 2 * (p + v1) * v1 ≤ v1^2 / 30 := by
        nlinarith [sq_nonneg (30 * (p + v1) - v1)]
      have h71 : 71 * v1^2 ≤ Vlyap (p + v1) v1 := by
        unfold Vlyap
        nlinarith [sq_nonneg ((p + v1) - v1), sq_nonneg (p + v1)]
      rw [hexp, hid]
      rw [hid] at h71
      linarith
    · rcases lt_or_le 1 (p + v1) with hhigh | hmid
      · have hp1eq : p1 = 1 := by
          rw [hp1def, min_eq_left (le_of_lt hhigh)]
          exact max_eq_right (by norm_num)
        rw [hp1eq]
        have hdiff : Vlyap (p + v1) v1 - Vlyap 1 v1 =
            ((p + v1) - 1) * (30 * ((p + v1) + 1) - 2 * v1) := by
          unfold Vlyap
          ring
        have hfac : 0 < 30 * ((p + v1) + 1) - 2 * v1 := by nlinarith
        have hpos : 0 ≤ ((p + v1) - 1) * (30 * ((p + v1) + 1) - 2 * v1) :=
          mul_nonneg (by linarith) (le_of_lt hfac)
        rw [hid] at hdiff
        linarith
      · have hp1eq : p1 = p + v1 := by
          rw [hp1def, min_eq_right hmid]
          exact max_eq_right hx.le
        rw [hp1eq, hid]
        linarith
  refine ⟨?_, ?_, hbound, ?_⟩
  · rw [hp1def]; exact le_max_left 0 _
  · rw [hp1def]
    exact max_le (by norm_num) (min_le_left 1 _)
  · intro hfail
    apply vlyap_lower
    rcases not_and_or.mp hfail with h | h
    · exact Or.inl (le_of_not_lt h)
    · exact Or.inr (le_of_not_lt h)

theorem stepV2_snapback_eq (c : Ctrl) (hst : c.state = PeelState.SNAP_BACK) :
    stepV2 P2 (1/60) c =
      if |max 0 (min 1 (c.peelProgress + (c.peelVelocity * (18/25) +
            (c.peelTarget - c.peelProgress) * 18 * (1/60))))| < 1/200 ∧
          |c.peelVelocity * (18/25) + (c.peelTarget - c.peelProgress) * 18 * (1/60)| < 1/500
      then { c with state := PeelState.IDLE, peelProgress := 0, peelVelocity := 0 }
      else { c with
        peelVelocity :=
          c.peelVelocity * (18/25) + (c.peelTarget - c.peelProgress) * 18 * (1/60)
        peelProgress := max 0 (min 1 (c.peelProgress + (c.peelVelocity * (18/25) +
          (c.peelTarget - c.peelProgress) * 18 * (1/60)))) } := by
  unfold stepV2
  rw [if_pos (Or.inr hst)]
  simp only [hst, true_and]
  rfl

theorem stepV2_idle (c : Ctrl) (h : c.state = PeelState.IDLE) :
    stepV2 P2 (1/60) c = c := by
  unfold stepV2
  rw [if_neg]
  rw [h]
  rintro (h1 | h1) <;> exact PeelState.noConfusion h1

theorem stepN_idle (n : ℕ) (c : Ctrl) (h : c.state = PeelState.IDLE) :
    stepN n c = c := by
  induction n generalizing c with
  | zero => rfl
  | succ m ih =>
      show stepN m (stepV2 P2 (1/60) c) = c
      rw [stepV2_idle c h]
      exact ih c h

theorem stepN_succ_last (n : ℕ) (c : Ctrl) :
    stepN (n + 1) c = stepV2 P2 (1/60) (stepN n c) := by
  induction n generalizing c with
  | zero => rfl
  | succ m ih =>
      show stepN (m + 1) (stepV2 P2 (1/60) c) = stepV2 P2 (1/60) (stepN (m + 1) c)
      rw [ih (stepV2 P2 (1/60) c)]
      rfl

theorem stepN_add (a b : ℕ) (c : Ctrl) : stepN (a + b) c = stepN a (stepN b c) := by
  induction b generalizing c with
  | zero => rfl
  | succ m ih =>
      show stepN (a + m + 1) c = stepN a (stepN (m + 1) c)
      rw [stepN_succ_last (a + m) c, ih c, ← stepN_succ_last a (stepN m c),
        stepN_succ_last m c]
      rfl

theorem stepV2_snap (c : Ctrl) (hst : c.state = PeelState.SNAP_BACK)
    (ht : c.peelTarget = 0) (hp0 : 0 ≤ c.peelProgress) (hp1 : c.peelProgress ≤ 1) :
    ((stepV2 P2 (1/60) c).state = PeelState.IDLE ∧
      (stepV2 P2 (1/60) c).peelProgress = 0) ∨
    ((stepV2 P2 (1/60) c).state = PeelState.SNAP_BACK ∧
      (stepV2 P2 (1/60) c).peelTarget = 0 ∧
      0 ≤ (stepV2 P2 (1/60) c).peelProgress ∧ (stepV2 P2 (1/60) c).peelProgress ≤ 1 ∧
      Vlyap (stepV2 P2 (1/60) c).peelProgress (stepV2 P2 (1/60) c).peelVelocity ≤
        (73/100) * Vlyap c.peelProgress c.peelVelocity ∧
      71/250000 ≤
        Vlyap (stepV2 P2 (1/60) c).peelProgress (stepV2 P2 (1/60) c).peelVelocity) := by
  have hkey := stepV2_snapback_eq c hst
  rw [ht] at hkey
  set v1 := c.peelVelocity * (18/25) + (0 - c.peelProgress) * 18 * (1/60) with hv1
  set p1 := max 0 (min 1 (c.peelProgress + v1)) with hp1def
  have hcore := snap_core c.peelProgress c.peelVelocity v1 p1 hp0 hp1 hv1 hp1def
  by_cases hc : |p1| < 1/200 ∧ |v1| < 1/500
  · rw [hkey, if_pos hc]
    exact Or.inl ⟨rfl, rfl⟩
  · rw [hkey, if_neg hc]
    exact Or.inr ⟨hst, rfl, hcore.1, hcore.2.1, hcore.2.2.1, hcore.2.2.2 hc⟩

theorem stepN_snap (c : Ctrl) (hst : c.state = PeelState.SNAP_BACK)
    (ht : c.peelTarget = 0) (hp0 : 0 ≤ c.peelProgress) (hp1 : c.peelProgress ≤ 1) (n : ℕ) :
    ((stepN n c).state = PeelState.IDLE ∧ (stepN n c).peelProgress = 0) ∨
    ((stepN n c).state = PeelState.SNAP_BACK ∧ (stepN n c).peelTarget = 0 ∧
      0 ≤ (stepN n c).peelProgress ∧ (stepN n c).peelProgress ≤ 1 ∧
      Vlyap (stepN n c).peelProgress (stepN n c).peelVelocity ≤
        (73/100)^n * Vlyap c.peelProgress c.peelVelocity ∧
      (1 ≤ n → 71/250000 ≤
        Vlyap (stepN n c).peelProgress (stepN n c).peelVelocity)) := by
  induction n with
  | zero =>
      refine Or.inr ⟨hst, ht, hp0, hp1, ?_, by omega⟩
      rw [pow_zero, one_mul]
      exact le_of_eq rfl
  | succ m ih =>
      rw [stepN_succ_last m c]
      rcases ih with ⟨hI, hP⟩ | ⟨h1, h2, h3, h4, h5, -⟩
      · rw [stepV2_idle _ hI]
        exact Or.inl ⟨hI, hP⟩
      · rcases stepV2_snap (stepN m c) h1 h2 h3 h4 with hL | ⟨g1, g2, g3, g4, g5, g6⟩
        · exact Or.inl hL
        · refine Or.inr ⟨g1, g2, g3, g4, ?_, fun _ => g6⟩
          calc Vlyap (stepV2 P2 (1/60) (stepN m c)).peelProgress
                (stepV2 P2 (1/60) (stepN m c)).peelVelocity ≤
              (73/100) * Vlyap (stepN m c).peelProgress (stepN m c).peelVelocity := g5
            _ ≤ (73/100) * ((73/100)^m * Vlyap c.peelProgress c.peelVelocity) := by
                apply mul_le_mul_of_nonneg_left h5 (by norm_num)
            _ = (73/100)^(m+1) * Vlyap c.peelProgress c.peelVelocity := by ring

/-- C9: sustained SNAP_BACK stepping settles: from every SNAP_BACK state with
`peelTarget = 0`, `peelProgress` in `[0,1]` and `peelVelocity` in `[-1,1]`,
300 fixed physics steps at the defaults (1/60 s, spring 18, damping 0.72)
reach IDLE with `peelProgress` within 0.01 of zero (in fact exactly 0).  The
proof uses the quadratic Lyapunov form `Vlyap`, which contracts by at least
the factor 0.73 on every non-settling step — including the steps clamped at
0 or 1 — so after 45 steps it is below the settle-detection floor and the
integrator must already have transitioned to IDLE, which is absorbing. -/
theorem claim_C9 (c : Ctrl) (hst : c.state = PeelState.SNAP_BACK)
    (ht : c.peelTarget = 0) (hp0 : 0 ≤ c.peelProgress) (hp1 : c.peelProgress ≤ 1)
    (hv0 : -1 ≤ c.peelVelocity) (hv1 : c.peelVelocity ≤ 1) :
    (stepN 300 c).state = PeelState.IDLE ∧ |(stepN 300 c).peelProgress| < 1/100 := by
  have hVinit : Vlyap c.peelProgress c.peelVelocity ≤ 104 := by
    unfold Vlyap
    nlinarith [sq_nonneg (c.peelProgress + c.peelVelocity),
      mul_nonneg (by linarith : (0:ℚ) ≤ 1 - c.peelProgress)
        (by linarith : (0:ℚ) ≤ 1 + c.peelProgress),
      mul_nonneg (by linarith : (0:ℚ) ≤ 1 - c.peelVelocity)
        (by linarith : (0:ℚ) ≤ 1 + c.peelVelocity)]
  have hidle : (stepN 45 c).state = PeelState.IDLE ∧ (stepN 45 c).peelProgress = 0 := by
    rcases stepN_snap c hst ht hp0 hp1 45 with h | ⟨-, -, -, -, h5, h6⟩
    · exact h
    · exfalso
      have hpow : ((73:ℚ)/100)^45 * Vlyap c.peelProgress c.peelVelocity ≤
          (73/100)^45 * 104 :=
        mul_le_mul_of_nonneg_left hVinit (by positivity)
      have hsmall : ((73:ℚ)/100)^45 * 104 < 71/250000 := by norm_num
      have hlow := h6 (by norm_num)
      linarith
  have h300 : stepN 300 c = stepN 255 (stepN 45 c) := by
    rw [show (300 : ℕ) = 255 + 45 from by norm_num, stepN_add]
  rw [h300, stepN_idle 255 _ hidle.1]
  refine ⟨hidle.1, ?_⟩
  rw [hidle.2]
  norm_num

theorem claim_C9_witness :
    (⟨PeelState.SNAP_BACK, 1/4, 0, 0, ⟨0, 0⟩, ⟨1, 0⟩, ⟨1, 0⟩⟩ : Ctrl).state =
        PeelState.SNAP_BACK ∧
    (⟨PeelState.SNAP_BACK, 1/4, 0, 0, ⟨0, 0⟩, ⟨1, 0⟩, ⟨1, 0⟩⟩ : Ctrl).peelTarget = 0 ∧
    (0 : ℚ) ≤ 1/4 ∧ (1/4 : ℚ) ≤ 1 ∧ (-1 : ℚ) ≤ 0 ∧ (0 : ℚ) ≤ 1 ∧
    ((stepN 300 ⟨PeelState.SNAP_BACK, 1/4, 0, 0, ⟨0, 0⟩, ⟨1, 0⟩, ⟨1, 0⟩⟩).state =
        PeelState.IDLE ∧
      |(stepN 300 ⟨PeelState.SNAP_BACK, 1/4, 0, 0, ⟨0, 0⟩, ⟨1, 0⟩, ⟨1, 0⟩⟩).peelProgress| <
        1/100) :=
  ⟨rfl, rfl, by norm_num, by norm_num, by norm_num, by norm_num,
   claim_C9 ⟨PeelState.SNAP_BACK, 1/4, 0, 0, ⟨0, 0⟩, ⟨1, 0⟩, ⟨1, 0⟩⟩ rfl rfl
     (by norm_num) (by norm_num) (by norm_num) (by norm_num)⟩

end Sticker
